import Mathlib

/-!
Verification of the structure-preserving legal-document translation pipeline.

The development shallowly embeds the pipeline's data model and algorithms:
segment filtering and greedy batch construction (`createBatches`), the
windowed translation loop with cancellation and per-batch fallback
(`runTranslationPipeline`), proportional run-text redistribution
(`replaceParagraphText`, over UTF-16 code units so that surrogate-pair
boundaries are observable), response length adjustment
(`parseTranslationResponse`), legal-section classification
(`classifyLegalSection`), and the part-scanning logic of `parseDocx`.
JavaScript strings are modelled as Lean `String`s except where UTF-16
code-unit indexing is semantically relevant, where `List Nat` of code units
is used.  Wall-clock timestamps, data-URL serialization and the XML/ZIP
byte level are outside the embedding; XML parts are modelled as lists of
paragraphs (text, table-cell flag, style) and the archive as an association
list of part name to paragraphs.
-/

/-- Locations a text segment can come from (`SegmentContext.location`). -/
inductive Location where
  | body
  | header
  | footer
  | footnote
  | tableCell
deriving DecidableEq

/-- Segment / batch statuses (`'pending' | 'translating' | 'completed' | 'error'`). -/
inductive SegStatus where
  | pending
  | translating
  | completed
  | error
deriving DecidableEq

/-- `TextSegment` from types.ts (fields relevant to the modelled logic). -/
structure TextSegment where
  id : String
  text : String
  translatedText : Option String := none
  xmlPath : String
  paragraphIndex : Nat
  location : Location
  styleInfo : Option String := none
  status : SegStatus
  errMsg : Option String := none
deriving DecidableEq

/-- `TranslationConfig` from types.ts (`modelTemperature` is passed through
untouched to the collaborator and does not influence the modelled logic). -/
structure TranslationConfig where
  batchSize : Nat
  maxCharsPerBatch : Nat
  maxConcurrentBatches : Nat
  sourceLanguage : String
  targetLanguage : String
  excludedTerms : List String
  translateHeaders : Bool
  translateFooters : Bool
  translateFootnotes : Bool
deriving DecidableEq

/-- `TranslationBatch` from types.ts; batch ids are `batch-${n}` in the source
with `n` the positional index, modelled as the bare index. -/
structure TranslationBatch where
  id : Nat
  segments : List TextSegment
  startIndex : Nat
  totalCharacters : Nat
  status : SegStatus
  retryCount : Nat
deriving DecidableEq

/-- Eligibility predicate of `filterSegmentsBySettings`
(translationPipelineService): headers/footers/footnotes are independently
excludable, body and table cells are always eligible. -/
def segmentEligible (config : TranslationConfig) (segment : TextSegment) : Bool :=
  if segment.location = Location.header ∧ config.translateHeaders = false then false
  else if segment.location = Location.footer ∧ config.translateFooters = false then false
  else if segment.location = Location.footnote ∧ config.translateFootnotes = false then false
  else true

/-- `filterSegmentsBySettings` from translationPipelineService. -/
def filterSegmentsBySettings (segments : List TextSegment) (config : TranslationConfig) :
    List TextSegment :=
  segments.filter (segmentEligible config)

/-- Loop body state of `createBatches`: remaining segments, current loop index,
current batch, current character total, batch start index, next batch id. -/
def createBatchesGo (cfg : TranslationConfig) :
    List TextSegment → Nat → List TextSegment → Nat → Nat → Nat → List TranslationBatch
  | [], _i, cur, curChars, startIndex, batchId =>
      if cur.length > 0 then
        [{ id := batchId, segments := cur, startIndex := startIndex,
           totalCharacters := curChars, status := SegStatus.pending, retryCount := 0 }]
      else []
  | s :: rest, i, cur, curChars, startIndex, batchId =>
      let segmentChars := s.text.length
      let batchFull := decide (cfg.batchSize ≤ cur.length)
      let tooManyChars := decide (cfg.maxCharsPerBatch < curChars + segmentChars) &&
        decide (0 < cur.length)
      if batchFull || tooManyChars then
        { id := batchId, segments := cur, startIndex := startIndex,
          totalCharacters := curChars, status := SegStatus.pending, retryCount := 0 } ::
          createBatchesGo cfg rest (i + 1) [s] segmentChars i (batchId + 1)
      else
        createBatchesGo cfg rest (i + 1) (cur ++ [s]) (curChars + segmentChars) startIndex batchId

/-- `createBatches` from translationPipelineService: greedy left-to-right
batching bounded by `batchSize` units and `maxCharsPerBatch` characters (the
character bound is only checked once the current batch is non-empty). -/
def createBatches (segments : List TextSegment) (cfg : TranslationConfig) :
    List TranslationBatch :=
  createBatchesGo cfg segments 0 [] 0 0 0

theorem createBatchesGo_flatten (cfg : TranslationConfig) :
    ∀ (rest : List TextSegment) (i : Nat) (cur : List TextSegment)
      (curChars startIndex batchId : Nat),
      ((createBatchesGo cfg rest i cur curChars startIndex batchId).map
          (fun b => b.segments)).flatten = cur ++ rest := by
  intro rest
  induction rest with
  | nil =>
      intro i cur curChars startIndex batchId
      by_cases h : cur.length > 0
      · simp [createBatchesGo, h]
      · simp only [createBatchesGo, if_neg h]
        simp only [gt_iff_lt, Nat.not_lt, Nat.le_zero, List.length_eq_zero] at h
        simp [h]
  | cons s rest ih =>
      intro i cur curChars startIndex batchId
      simp only [createBatchesGo]
      split
      · rw [List.map_cons, List.flatten_cons, ih]
        simp
      · rw [ih]
        simp

/-- Claim C1: for every segment list and configuration, the batches produced by
`createBatches` concatenate, in batch order, back to the input segment list
(hence batches form a contiguous partition with no reordering or duplication),
and the batch unit counts sum to the eligible unit count. -/
theorem createBatches_partition (segments : List TextSegment) (cfg : TranslationConfig) :
    (((createBatches segments cfg).map (fun b => b.segments)).flatten = segments) ∧
    (((createBatches segments cfg).map (fun b => b.segments.length)).sum = segments.length) := by
  have hjoin := createBatchesGo_flatten cfg segments 0 [] 0 0 0
  simp only [List.nil_append] at hjoin
  refine ⟨hjoin, ?_⟩
  have := congrArg List.length hjoin
  rw [List.length_flatten] at this
  simpa [Function.comp] using this

theorem createBatchesGo_bounds (cfg : TranslationConfig) (hb : 1 ≤ cfg.batchSize) :
    ∀ (rest : List TextSegment) (i : Nat) (cur : List TextSegment)
      (curChars startIndex batchId : Nat),
      cur.length ≤ cfg.batchSize →
      (cfg.maxCharsPerBatch < curChars → cur.length ≤ 1) →
      ∀ b ∈ createBatchesGo cfg rest i cur curChars startIndex batchId,
        b.segments.length ≤ cfg.batchSize ∧
        (cfg.maxCharsPerBatch < b.totalCharacters → b.segments.length = 1) := by
  intro rest
  induction rest with
  | nil =>
      intro i cur curChars startIndex batchId hlen hchars b hb'
      by_cases h : cur.length > 0
      · simp [createBatchesGo, h] at hb'
        subst hb'
        exact ⟨hlen, fun hgt => Nat.le_antisymm (hchars hgt) h⟩
      · simp [createBatchesGo, h] at hb'
  | cons s rest ih =>
      intro i cur curChars startIndex batchId hlen hchars b hb'
      simp only [createBatchesGo] at hb'
      split at hb'
      · rename_i h
        rcases List.mem_cons.mp hb' with hfirst | hrest
        · subst hfirst
          refine ⟨hlen, fun hgt => ?_⟩
          have hpos : 0 < cur.length := by
            rcases Bool.or_eq_true _ _ |>.mp h with h1 | h2
            · exact Nat.lt_of_lt_of_le hb (by simpa using h1)
            · simpa using (Bool.and_eq_true _ _ |>.mp h2).2
          exact Nat.le_antisymm (hchars hgt) hpos
        · refine ih (i + 1) [s] s.text.length i (batchId + 1) ?_ ?_ b hrest
          · simpa using hb
          · intro _; simp
      · rename_i h
        simp only [Bool.or_eq_true, Bool.and_eq_true, decide_eq_true_eq, not_or, not_and] at h
        obtain ⟨hnotfull, hnotchars⟩ := h
        have hlt : cur.length < cfg.batchSize := Nat.lt_of_not_le hnotfull
        refine ih (i + 1) (cur ++ [s]) (curChars + s.text.length) startIndex batchId ?_ ?_ b hb'
        · simpa using hlt
        · intro hgt
          by_cases hcur : 0 < cur.length
          · exact absurd hcur (hnotchars hgt)
          · have : cur = [] := List.length_eq_zero.mp (Nat.eq_zero_of_not_pos hcur)
            subst this
            simp

/-- Claim C2: with `batchSize ≥ 1`, every batch holds at most `batchSize`
segments, and a batch whose `totalCharacters` exceeds `maxCharsPerBatch`
contains exactly one (oversized) segment. -/
theorem createBatches_size_bounds (segments : List TextSegment) (cfg : TranslationConfig)
    (hb : 1 ≤ cfg.batchSize) :
    ∀ b ∈ createBatches segments cfg,
      b.segments.length ≤ cfg.batchSize ∧
      (cfg.maxCharsPerBatch < b.totalCharacters → b.segments.length = 1) := by
  intro b hmem
  exact createBatchesGo_bounds cfg hb segments 0 [] 0 0 0 (by simp)
    (by intro h; simp) b hmem

def segW1 : TextSegment :=
  { id := "docx-word-document-xml-para-0", text := "One clause.",
    xmlPath := "word/document.xml", paragraphIndex := 0,
    location := Location.body, status := SegStatus.pending }

def segW2 : TextSegment :=
  { id := "docx-word-document-xml-para-1", text := "Another clause.",
    xmlPath := "word/document.xml", paragraphIndex := 1,
    location := Location.body, status := SegStatus.pending }

def cfgW : TranslationConfig :=
  { batchSize := 1, maxCharsPerBatch := 4, maxConcurrentBatches := 3,
    sourceLanguage := "auto", targetLanguage := "es", excludedTerms := [],
    translateHeaders := true, translateFooters := true, translateFootnotes := true }

theorem createBatches_size_bounds_witness :
    1 ≤ cfgW.batchSize ∧
    ∀ b ∈ createBatches [segW1, segW2] cfgW,
      b.segments.length ≤ cfgW.batchSize ∧
      (cfgW.maxCharsPerBatch < b.totalCharacters → b.segments.length = 1) :=
  ⟨by decide, createBatches_size_bounds [segW1, segW2] cfgW (by decide)⟩

/-- JavaScript `Math.round (num / den)` for non-negative rationals, as used for
the proportional target length in `replaceParagraphText` (the floating-point
quotient is exact at every input considered here). -/
def jsRound (num den : Nat) : Nat := (2 * num + den) / (2 * den)

/-- Break-point selection of `replaceParagraphText`: prefer a space within five
code units of the proportional target (code unit 32 is the space). -/
def findBreakPoint (remaining : List Nat) (targetLength : Nat) : Nat :=
  if 0 < targetLength ∧ targetLength < remaining.length then
    let searchStart := targetLength - 5
    let searchEnd := min remaining.length (targetLength + 5)
    match ((remaining.drop searchStart).take (searchEnd - searchStart)).findIdx?
        (fun c => c == 32) with
    | some nearbySpace => searchStart + nearbySpace + 1
    | none => targetLength
  else targetLength

/-- The proportional distribution loop of `replaceParagraphText`: the last run
absorbs all remaining text, every earlier run takes the prefix up to the
break point computed from its share of the remaining original length. -/
def distributeProportional : List Nat → List Nat → Nat → List (List Nat)
  | [], _remaining, _remOrig => []
  | [_origLen], remaining, _remOrig => [remaining]
  | origLen :: rest, remaining, remOrig =>
      let targetLength := jsRound (remaining.length * origLen) remOrig
      let breakPoint := findBreakPoint remaining targetLength
      remaining.take breakPoint ::
        distributeProportional rest (remaining.drop breakPoint) (remOrig - origLen)

/-- `replaceParagraphText` from docxParserService, over the paragraph's
`w:t` texts as lists of UTF-16 code units: single run means wholesale
replacement; zero total original length puts everything in the first run and
clears the rest; otherwise the text is distributed proportionally. -/
def replaceParagraphText (runTexts : List (List Nat)) (translated : List Nat) :
    List (List Nat) :=
  match runTexts with
  | [] => []
  | [_single] => [translated]
  | _ =>
      let totalOriginalLength := (runTexts.map List.length).sum
      if totalOriginalLength = 0 then
        translated :: List.replicate (runTexts.length - 1) []
      else
        distributeProportional (runTexts.map List.length) translated totalOriginalLength

/-- UTF-16 high surrogate (first half of a supplementary-plane character). -/
def isHighSurrogate (c : Nat) : Bool := decide (0xD800 ≤ c) && decide (c ≤ 0xDBFF)

/-- UTF-16 low surrogate (second half of a supplementary-plane character). -/
def isLowSurrogate (c : Nat) : Bool := decide (0xDC00 ≤ c) && decide (c ≤ 0xDFFF)

/-- A well-formed UTF-16 code-unit sequence: every high surrogate is
immediately followed by a low surrogate and low surrogates appear only there. -/
def wellFormedUtf16 : List Nat → Bool
  | [] => true
  | [c] => !isHighSurrogate c && !isLowSurrogate c
  | c :: c2 :: rest =>
      if isHighSurrogate c then isLowSurrogate c2 && wellFormedUtf16 rest
      else !isLowSurrogate c && wellFormedUtf16 (c2 :: rest)

/-- A run boundary cut a character in half: some run ends with a high
surrogate whose matching low surrogate starts the following runs' text. -/
def boundarySplitsCharacter : List (List Nat) → Bool
  | [] => false
  | [_] => false
  | piece :: rest =>
      (match piece.getLast?, rest.flatten.head? with
       | some a, some b => isHighSurrogate a && isLowSurrogate b
       | _, _ => false)
      || boundarySplitsCharacter rest

theorem distributeProportional_flatten :
    ∀ (lens : List Nat) (remaining : List Nat) (remOrig : Nat), lens ≠ [] →
      (distributeProportional lens remaining remOrig).flatten = remaining := by
  intro lens
  induction lens with
  | nil => intro _ _ h; exact absurd rfl h
  | cons origLen rest ih =>
      intro remaining remOrig _
      cases rest with
      | nil => simp [distributeProportional]
      | cons l2 rest2 =>
          simp only [distributeProportional, List.flatten_cons]
          rw [ih _ _ (by simp)]
          exact List.take_append_drop _ remaining

/-- Claim C3 (amended): for a paragraph with at least one text run, the run
texts assigned by `replaceParagraphText` concatenate exactly to the translated
text, so their lengths sum to the translated length; boundaries are taken at
UTF-16 code-unit offsets (see the counterexample for the surrogate-pair case). -/
theorem replaceParagraphText_length_preserved (runTexts : List (List Nat))
    (translated : List Nat) (h : runTexts ≠ []) :
    ((replaceParagraphText runTexts translated).flatten = translated) ∧
    (((replaceParagraphText runTexts translated).map List.length).sum = translated.length) := by
  have hflat : (replaceParagraphText runTexts translated).flatten = translated := by
    match runTexts, h with
    | [single], _ => simp [replaceParagraphText]
    | a :: b :: rest, _ =>
        simp only [replaceParagraphText]
        split
        · simp
        · exact distributeProportional_flatten _ _ _ (by simp)
  refine ⟨hflat, ?_⟩
  have := congrArg List.length hflat
  rw [List.length_flatten] at this
  exact this

theorem replaceParagraphText_length_preserved_witness :
    (([[65], [66, 67]] : List (List Nat)) ≠ []) ∧
    ((replaceParagraphText [[65], [66, 67]] [72, 73, 32, 74]).flatten = [72, 73, 32, 74]) ∧
    (((replaceParagraphText [[65], [66, 67]] [72, 73, 32, 74]).map List.length).sum = 4) :=
  ⟨by decide, replaceParagraphText_length_preserved [[65], [66, 67]] [72, 73, 32, 74] (by decide)⟩

/-- Claim C3 counterexample: distributing the well-formed translated text
`U+1F600 U+1F600` (code units `D83D DE00 D83D DE00`) over two runs of original
lengths 1 and 3 places the first run boundary between the surrogate halves of
the first emoji, i.e. inside a multi-byte character, refuting the claim that no
run boundary is ever placed inside a multi-byte character. -/
theorem replaceParagraphText_surrogate_split_counterexample :
    wellFormedUtf16 [0xD83D, 0xDE00, 0xD83D, 0xDE00] = true ∧
    (([[65], [66, 67, 68]].map (List.length (α := Nat))).sum ≠ 0) ∧
    replaceParagraphText [[65], [66, 67, 68]] [0xD83D, 0xDE00, 0xD83D, 0xDE00] =
      [[0xD83D], [0xDE00, 0xD83D, 0xDE00]] ∧
    boundarySplitsCharacter
      (replaceParagraphText [[65], [66, 67, 68]] [0xD83D, 0xDE00, 0xD83D, 0xDE00]) = true := by
  decide

/-- Modelled from the spec: the rebuilder (docxRebuilderService, and part_005)
calls `replaceParagraphText(paragraph, translation, useSimpleReplacement)` with
a third argument, but only the two-argument `replaceParagraphText` appears
under src/; the variant honouring the flag is missing.  Per the spec, when the
flag is set the whole translated text goes into a single run and the other
runs are cleared, regardless of run count; otherwise the two-argument
behaviour applies. -/
def replaceParagraphTextMode (runTexts : List (List Nat)) (translated : List Nat)
    (useSimple : Bool) : List (List Nat) :=
  if useSimple then
    match runTexts with
    | [] => []
    | _ :: rest => translated :: List.replicate rest.length []
  else replaceParagraphText runTexts translated

/-- The rebuilder's dispatch (docxRebuilderService `rebuildDocx`): simple
replacement for headers, footers, footnotes and table cells. -/
def useSimpleReplacement (loc : Location) : Bool :=
  decide (loc = Location.header) || decide (loc = Location.footer) ||
    decide (loc = Location.footnote) || decide (loc = Location.tableCell)

/-- Per-segment text injection performed by `rebuildDocx` on the paragraph at
the segment's recorded index. -/
def rebuildParagraphText (loc : Location) (runTexts : List (List Nat))
    (translated : List Nat) : List (List Nat) :=
  replaceParagraphTextMode runTexts translated (useSimpleReplacement loc)

/-- Claim C4: for segments located in headers, footers, footnotes or table
cells, the rebuilder always performs single-run wholesale replacement — the
whole translated text lands in the first run and every other run is cleared —
regardless of the number of runs, never proportional distribution. -/
theorem rebuild_fragile_locations_simple (loc : Location)
    (h : loc = Location.header ∨ loc = Location.footer ∨ loc = Location.footnote ∨
      loc = Location.tableCell)
    (runTexts : List (List Nat)) (translated : List Nat) (hne : runTexts ≠ []) :
    rebuildParagraphText loc runTexts translated =
      translated :: List.replicate (runTexts.length - 1) [] := by
  have hs : useSimpleReplacement loc = true := by
    rcases h with h | h | h | h <;> simp [useSimpleReplacement, h]
  match runTexts, hne with
  | r :: rest, _ =>
      simp [rebuildParagraphText, replaceParagraphTextMode, hs]

theorem rebuild_fragile_locations_simple_witness :
    (Location.header = Location.header ∨ Location.header = Location.footer ∨
      Location.header = Location.footnote ∨ Location.header = Location.tableCell) ∧
    (([[65], [66]] : List (List Nat)) ≠ []) ∧
    rebuildParagraphText Location.header [[65], [66]] [90, 91, 92] = [[90, 91, 92], []] :=
  ⟨Or.inl rfl, by decide,
    rebuild_fragile_locations_simple Location.header (Or.inl rfl) [[65], [66]] [90, 91, 92]
      (by decide)⟩

/-- The padding loop of `parseTranslationResponse` (geminiService): while the
decoded array is shorter than the request, push the original text at the
first missing index.  Fuel-indexed; `originals.length` steps always suffice. -/
def padMissingAux : Nat → List String → List String → List String
  | 0, translations, _originals => translations
  | fuel + 1, translations, originals =>
      if h : translations.length < originals.length then
        padMissingAux fuel (translations ++ [originals.get ⟨translations.length, h⟩]) originals
      else translations

def padMissing (translations originals : List String) : List String :=
  padMissingAux originals.length translations originals

/-- Length adjustment of `parseTranslationResponse` (geminiService): on a
decoded `translations` array whose length differs from the request, pad the
missing tail positions with the original texts and slice off any extras; an
array of the right length is returned unchanged.  The upstream JSON/markdown
extraction is not modelled — the claim concerns the decoded array. -/
def parseTranslationResponse (decodedTranslations originalTexts : List String) :
    List String :=
  if decodedTranslations.length ≠ originalTexts.length then
    let padded := padMissing decodedTranslations originalTexts
    if originalTexts.length < padded.length then padded.take originalTexts.length else padded
  else decodedTranslations

theorem padMissingAux_eq :
    ∀ (fuel : Nat) (translations originals : List String),
      originals.length - translations.length ≤ fuel →
      padMissingAux fuel translations originals =
        translations ++ originals.drop translations.length := by
  intro fuel
  induction fuel with
  | zero =>
      intro translations originals hf
      have hle : originals.length ≤ translations.length := by omega
      simp [padMissingAux, List.drop_eq_nil_of_le hle]
  | succ fuel ih =>
      intro translations originals hf
      simp only [padMissingAux]
      split
      · rename_i h
        rw [ih _ _ (by simp; omega)]
        rw [List.append_assoc]
        congr 1
        simp only [List.length_append, List.length_singleton]
        rw [List.drop_eq_get_cons h]
        simp
      · rename_i h
        have hle : originals.length ≤ translations.length := by omega
        simp [List.drop_eq_nil_of_le hle]

theorem padMissing_eq (translations originals : List String) :
    padMissing translations originals =
      translations ++ originals.drop translations.length :=
  padMissingAux_eq originals.length translations originals (by omega)

/-- Claim C6: whenever the decoded translations array differs in length from
the request, `parseTranslationResponse` returns exactly as many entries as
requested — position `i` holds the decoded translation when one was present
and the original text at `i` otherwise (missing tail padded, extras cut). -/
theorem parseTranslationResponse_pads_truncates (decoded originals : List String)
    (h : decoded.length ≠ originals.length) :
    (parseTranslationResponse decoded originals).length = originals.length ∧
    ∀ i, i < originals.length →
      (parseTranslationResponse decoded originals).get? i =
        if i < decoded.length then decoded.get? i else originals.get? i := by
  simp only [parseTranslationResponse, if_pos h, padMissing_eq]
  rcases Nat.lt_or_ge decoded.length originals.length with hlt | hge
  · have hlen : (decoded ++ originals.drop decoded.length).length = originals.length := by
      simp; omega
    rw [if_neg (by omega)]
    refine ⟨hlen, fun i hi => ?_⟩
    by_cases hid : i < decoded.length
    · rw [if_pos hid, List.get?_append hid]
    · rw [if_neg hid]
      have hge' : decoded.length ≤ i := Nat.le_of_not_lt hid
      rw [List.get?_append_right hge', List.get?_drop]
      congr 1
      omega
  · have hgt : originals.length < decoded.length := by omega
    have hdrop : originals.drop decoded.length = [] :=
      List.drop_eq_nil_of_le (Nat.le_of_lt hgt)
    rw [hdrop, List.append_nil, if_pos hgt]
    refine ⟨by simp [Nat.min_eq_left (Nat.le_of_lt hgt)], fun i hi => ?_⟩
    rw [if_pos (Nat.lt_trans hi hgt), List.get?_take hi]

theorem parseTranslationResponse_pads_truncates_witness :
    ((["uno"] : List String).length ≠ (["one", "two", "three"] : List String).length) ∧
    (parseTranslationResponse ["uno"] ["one", "two", "three"]).length = 3 ∧
    (∀ i, i < (["one", "two", "three"] : List String).length →
      (parseTranslationResponse ["uno"] ["one", "two", "three"]).get? i =
        if i < (["uno"] : List String).length then (["uno"] : List String).get? i
        else (["one", "two", "three"] : List String).get? i) :=
  ⟨by decide, parseTranslationResponse_pads_truncates ["uno"] ["one", "two", "three"] (by decide)⟩

/-- The fixed taxonomy of legal section types (types.ts `LegalSectionType`). -/
inductive LegalSectionType where
  | preamble
  | recitals
  | definitions
  | subject_matter
  | obligations
  | payment
  | term_termination
  | confidentiality
  | liability
  | warranties
  | dispute_resolution
  | general_provisions
  | signatures
  | schedules
  | unknown
deriving DecidableEq

/-- JavaScript `toLowerCase` restricted to ASCII letters (all classification
keywords and the inputs considered are ASCII apart from punctuation, on which
both agree). -/
def jsToLowerChar (c : Char) : Char :=
  if 'A' ≤ c ∧ c ≤ 'Z' then Char.ofNat (c.toNat + 32) else c

def jsToLower (s : String) : String := String.mk (s.toList.map jsToLowerChar)

/-- Whether `pat` occurs as a prefix... of `l` starting at its head. -/
def headMatches : List Char → List Char → Bool
  | _, [] => true
  | [], _ :: _ => false
  | c :: cs, p :: ps => c == p && headMatches cs ps

/-- Whether `pat` occurs contiguously anywhere in `l` (the effect of a literal
alternation branch of the source's case-insensitive regex tests). -/
def containsPat (pat : List Char) : List Char → Bool
  | [] => pat.isEmpty
  | c :: cs => headMatches (c :: cs) pat || containsPat pat cs

/-- One regex of `classifyLegalSection`: a case-insensitive alternation of the
given literal keywords, tested against the lowercased title. -/
def matchesAny (lower : String) (pats : List String) : Bool :=
  pats.any (fun p => containsPat p.toList lower.toList)

/-- `classifyLegalSection` from docxParserService: ordered, first-match-wins
keyword rules over the lowercased heading title. -/
def classifyLegalSection (title : String) : LegalSectionType :=
  let lower := jsToLower title
  if matchesAny lower ["preamble", "introduction", "parties", "between", "this agreement"] then
    LegalSectionType.preamble
  else if matchesAny lower ["recital", "whereas", "background", "premise"] then
    LegalSectionType.recitals
  else if matchesAny lower ["definition", "interpret", "meaning", "glossary"] then
    LegalSectionType.definitions
  else if matchesAny lower ["subject", "scope", "purpose", "object", "appointment"] then
    LegalSectionType.subject_matter
  else if matchesAny lower
      ["obligation", "duty", "duties", "responsibilities", "covenant", "undertaking"] then
    LegalSectionType.obligations
  else if matchesAny lower
      ["payment", "fee", "price", "compensation", "remuneration", "consideration", "invoice"] then
    LegalSectionType.payment
  else if matchesAny lower
      ["term", "duration", "termination", "expir", "cancel", "withdrawal"] then
    LegalSectionType.term_termination
  else if matchesAny lower
      ["confidential", "non-disclosure", "nda", "secrecy", "proprietary"] then
    LegalSectionType.confidentiality
  else if matchesAny lower
      ["liabil", "indemnif", "damages", "limitation", "exclusion", "remedy"] then
    LegalSectionType.liability
  else if matchesAny lower ["warrant", "represent", "guarantee", "assurance"] then
    LegalSectionType.warranties
  else if matchesAny lower
      ["dispute", "arbitrat", "jurisdiction", "governing law", "litigation", "mediat",
        "applicable law"] then
    LegalSectionType.dispute_resolution
  else if matchesAny lower
      ["general", "miscellaneous", "sever", "amendment", "waiver", "entire agreement",
        "notice", "force majeure"] then
    LegalSectionType.general_provisions
  else if matchesAny lower
      ["signature", "witness", "execut", "sign", "in witness whereof"] then
    LegalSectionType.signatures
  else if matchesAny lower ["schedule", "annex", "exhibit", "appendix", "attachment"] then
    LegalSectionType.schedules
  else LegalSectionType.unknown

/-- Claim C9 counterexample: the heading "WHEREAS, the parties wish..." is NOT
classified as `recitals` — the earlier preamble rule fires first because its
keyword `parties` occurs in the heading, and first match wins. -/
theorem classifyLegalSection_whereas_counterexample :
    classifyLegalSection "WHEREAS, the parties wish..." ≠ LegalSectionType.recitals := by
  decide

/-- Claim C9 (amended): classification is case-insensitive first-match-wins
keyword matching; "ARTICLE 5 — CONFIDENTIALITY" is classified as
`confidentiality`, but "WHEREAS, the parties wish..." is classified as
`preamble` (not `recitals`), because the preamble rule precedes the recitals
rule in the ordered list and its keyword `parties` matches the heading. -/
theorem classifyLegalSection_keywords :
    classifyLegalSection "ARTICLE 5 — CONFIDENTIALITY" = LegalSectionType.confidentiality ∧
    classifyLegalSection "WHEREAS, the parties wish..." = LegalSectionType.preamble := by
  constructor
  · decide
  · decide

/-- A paragraph of an XML part as the parser sees it: its concatenated `w:t`
text, whether an ancestor is a `w:tc` table cell, and its `w:pStyle` value. -/
structure RawParagraph where
  text : String
  inTableCell : Bool
  styleInfo : Option String := none
deriving DecidableEq

/-- `DocumentSettings` from types.ts (fields driving the parser). -/
structure DocumentSettings where
  translateHeaders : Bool
  translateFootnotes : Bool
  preserveFormatting : Bool
  translateComments : Bool
  excludedText : String
deriving DecidableEq

/-- Decides `^word\/header\d*\.xml$`-style patterns: `pre`, then zero or more
ASCII digits, then `suf`, exactly. -/
def digitsThen (suf : List Char) : List Char → Bool
  | [] => List.isEmpty suf
  | c :: rest =>
      if (c :: rest) == suf then true
      else (decide ('0' ≤ c) && decide (c ≤ '9')) && digitsThen suf rest

def stripFront : List Char → List Char → Option (List Char)
  | cs, [] => some cs
  | [], _ :: _ => none
  | c :: cs, p :: ps => if c == p then stripFront cs ps else none

def matchesPartPattern (pre suf name : String) : Bool :=
  match stripFront name.toList pre.toList with
  | some rest => digitsThen suf.toList rest
  | none => false

/-- The parser's `/^word\/header\d*\.xml$/` test. -/
def matchesHeaderPattern (name : String) : Bool :=
  matchesPartPattern "word/header" ".xml" name

/-- The parser's `/^word\/footer\d*\.xml$/` test. -/
def matchesFooterPattern (name : String) : Bool :=
  matchesPartPattern "word/footer" ".xml" name

/-- The `filesToParse` computation of `parseDocx`: the main body part always,
plus each archive member matching the header pattern when
`settings.translateHeaders` is set, and each member matching the footer
pattern when `settings.translateFootnotes` is set (the footer scan is indeed
gated on the footnote toggle in the source). -/
def filesToParse (names : List String) (settings : DocumentSettings) :
    List (String × Location) :=
  ("word/document.xml", Location.body) ::
    names.foldl (fun acc filename =>
      let acc1 :=
        if settings.translateHeaders && matchesHeaderPattern filename then
          acc ++ [(filename, Location.header)]
        else acc
      if settings.translateFootnotes && matchesFooterPattern filename then
        acc1 ++ [(filename, Location.footer)]
      else acc1) []

/-- The id sanitizer of `extractParagraphSegments`: `xmlPath.replace(/[\/\.]/g, '-')`. -/
def sanitizePath (s : String) : String :=
  String.mk (s.toList.map (fun c => if c == '/' || c == '.' then '-' else c))

/-- Segment constructed by `extractParagraphSegments` for paragraph `i`:
a table-cell ancestor overrides the part-level location. -/
def mkSegment (p : RawParagraph) (i : Nat) (xmlPath : String) (location : Location) :
    TextSegment :=
  { id := "docx-" ++ sanitizePath xmlPath ++ "-para-" ++ toString i,
    text := p.text, xmlPath := xmlPath, paragraphIndex := i,
    location := if p.inTableCell then Location.tableCell else location,
    styleInfo := p.styleInfo, status := SegStatus.pending }

/-- JavaScript whitespace test for `trim` (the characters relevant here). -/
def isJsSpace (c : Char) : Bool :=
  c == ' ' || c == '\t' || c == '\n' || c == '\r'

/-- JavaScript `String.prototype.trim`. -/
def jsTrim (s : String) : String :=
  String.mk (((s.toList.dropWhile isJsSpace).reverse.dropWhile isJsSpace).reverse)

/-- The paragraph loop of `extractParagraphSegments`: paragraphs whose trimmed
text is empty are skipped but still counted in the index. -/
def extractGo : List RawParagraph → Nat → String → Location → List TextSegment
  | [], _, _, _ => []
  | p :: rest, i, xmlPath, location =>
      if (jsTrim p.text).length = 0 then extractGo rest (i + 1) xmlPath location
      else mkSegment p i xmlPath location :: extractGo rest (i + 1) xmlPath location

/-- `extractParagraphSegments` from docxParserService. -/
def extractParagraphSegments (paras : List RawParagraph) (xmlPath : String)
    (location : Location) : List TextSegment :=
  extractGo paras 0 xmlPath location

/-- The segments contributed by one entry of `filesToParse`: a part missing
from the archive contributes nothing (and a malformed part is skipped the same
way in the source). -/
def partSegments (zip : List (String × List RawParagraph)) (pl : String × Location) :
    List TextSegment :=
  match List.lookup pl.1 zip with
  | none => []
  | some paras => extractParagraphSegments paras pl.1 pl.2

/-- `parseDocx` from docxParserService, over an archive modelled as an
association list from part name to its paragraphs. -/
def parseDocx (zip : List (String × List RawParagraph)) (settings : DocumentSettings) :
    List TextSegment :=
  (filesToParse (zip.map (fun f => f.1)) settings).foldl
    (fun segs pl => segs ++ partSegments zip pl) []

theorem filesToParse_mem (names : List String) (settings : DocumentSettings) :
    ∀ pl ∈ filesToParse names settings,
      (pl.1 = "word/document.xml" ∧ pl.2 = Location.body) ∨
      (matchesHeaderPattern pl.1 = true ∧ settings.translateHeaders = true ∧
        pl.2 = Location.header) ∨
      (matchesFooterPattern pl.1 = true ∧ settings.translateFootnotes = true ∧
        pl.2 = Location.footer) := by
  intro pl hpl
  simp only [filesToParse, List.mem_cons] at hpl
  rcases hpl with hbody | hfold
  · exact Or.inl (by simp [hbody])
  · refine Or.inr ?_
    suffices hgen : ∀ (acc : List (String × Location)),
        (∀ q ∈ acc,
          (matchesHeaderPattern q.1 = true ∧ settings.translateHeaders = true ∧
            q.2 = Location.header) ∨
          (matchesFooterPattern q.1 = true ∧ settings.translateFootnotes = true ∧
            q.2 = Location.footer)) →
        ∀ q ∈ names.foldl (fun acc filename =>
          let acc1 :=
            if settings.translateHeaders && matchesHeaderPattern filename then
              acc ++ [(filename, Location.header)]
            else acc
          if settings.translateFootnotes && matchesFooterPattern filename then
            acc1 ++ [(filename, Location.footer)]
          else acc1) acc,
          (matchesHeaderPattern q.1 = true ∧ settings.translateHeaders = true ∧
            q.2 = Location.header) ∨
          (matchesFooterPattern q.1 = true ∧ settings.translateFootnotes = true ∧
            q.2 = Location.footer) by
      exact hgen [] (by simp) pl hfold
    clear hfold
    induction names with
    | nil => intro acc hacc q hq; exact hacc q hq
    | cons n names ih =>
        intro acc hacc q hq
        simp only [List.foldl_cons] at hq
        refine ih _ ?_ q hq
        intro r hr
        split at hr
        · rename_i hfoot
          rcases List.mem_append.mp hr with hr1 | hr2
          · split at hr1
            · rename_i hhead
              rcases List.mem_append.mp hr1 with hra | hrb
              · exact hacc r hra
              · simp only [List.mem_singleton] at hrb
                subst hrb
                simp only [Bool.and_eq_true] at hhead
                exact Or.inl ⟨hhead.2, hhead.1, rfl⟩
            · exact hacc r hr1
          · simp only [List.mem_singleton] at hr2
            subst hr2
            simp only [Bool.and_eq_true] at hfoot
            exact Or.inr ⟨hfoot.2, hfoot.1, rfl⟩
        · split at hr
          · rename_i hhead
            rcases List.mem_append.mp hr with hra | hrb
            · exact hacc r hra
            · simp only [List.mem_singleton] at hrb
              subst hrb
              simp only [Bool.and_eq_true] at hhead
              exact Or.inl ⟨hhead.2, hhead.1, rfl⟩
          · exact hacc r hr

theorem extractGo_mem (paras : List RawParagraph) :
    ∀ (i : Nat) (xmlPath : String) (location : Location),
      ∀ s ∈ extractGo paras i xmlPath location,
        s.xmlPath = xmlPath ∧ (s.location = location ∨ s.location = Location.tableCell) := by
  induction paras with
  | nil => intro i xmlPath location s hs; simp [extractGo] at hs
  | cons p rest ih =>
      intro i xmlPath location s hs
      simp only [extractGo] at hs
      split at hs
      · exact ih (i + 1) xmlPath location s hs
      · rcases List.mem_cons.mp hs with hfirst | hrest
        · subst hfirst
          refine ⟨rfl, ?_⟩
          simp only [mkSegment]
          by_cases htc : p.inTableCell
          · simp [htc]
          · simp [htc]
        · exact ih (i + 1) xmlPath location s hrest

theorem parseDocx_foldl_mem (zip : List (String × List RawParagraph)) :
    ∀ (files : List (String × Location)) (acc : List TextSegment) (s : TextSegment),
      s ∈ files.foldl (fun segs pl => segs ++ partSegments zip pl) acc →
      s ∈ acc ∨ ∃ pl ∈ files, s ∈ partSegments zip pl := by
  intro files
  induction files with
  | nil => intro acc s hs; exact Or.inl hs
  | cons f rest ih =>
      intro acc s hs
      simp only [List.foldl_cons] at hs
      rcases ih _ s hs with hacc | ⟨pl, hpl, hmem⟩
      · rcases List.mem_append.mp hacc with h1 | h2
        · exact Or.inl h1
        · exact Or.inr ⟨f, List.mem_cons_self f rest, h2⟩
      · exact Or.inr ⟨pl, List.mem_cons_of_mem f hpl, hmem⟩

/-- Claim C10: `parseDocx` scans only the main body part, header parts matching
the header pattern (only when `settings.translateHeaders` is set) and footer
parts matching the footer pattern (only when `settings.translateFootnotes` is
set — the source gates the footer scan on the footnote toggle), so no returned
segment ever has location `footnote`. -/
theorem parseDocx_scanned_parts (zip : List (String × List RawParagraph))
    (settings : DocumentSettings) :
    ∀ s ∈ parseDocx zip settings,
      s.location ≠ Location.footnote ∧
      (s.xmlPath = "word/document.xml" ∨
        (matchesHeaderPattern s.xmlPath = true ∧ settings.translateHeaders = true) ∨
        (matchesFooterPattern s.xmlPath = true ∧ settings.translateFootnotes = true)) := by
  intro s hs
  rcases parseDocx_foldl_mem zip _ [] s hs with habs | ⟨pl, hpl, hmem⟩
  · simp at habs
  · have hpart : s.xmlPath = pl.1 ∧ (s.location = pl.2 ∨ s.location = Location.tableCell) := by
      simp only [partSegments] at hmem
      split at hmem
      · simp at hmem
      · exact extractGo_mem _ 0 pl.1 pl.2 s hmem
    have hfile := filesToParse_mem _ settings pl hpl
    obtain ⟨hpath, hloc⟩ := hpart
    constructor
    · rcases hloc with hl | hl
      · rcases hfile with ⟨_, hb⟩ | ⟨_, _, hb⟩ | ⟨_, _, hb⟩ <;>
          (rw [hl, hb]; intro hc; exact absurd hc (by decide))
      · rw [hl]; intro hc; exact absurd hc (by decide)
    · rcases hfile with ⟨h1, _⟩ | ⟨h1, h2, _⟩ | ⟨h1, h2, _⟩
      · exact Or.inl (hpath ▸ h1)
      · exact Or.inr (Or.inl ⟨hpath ▸ h1, h2⟩)
      · exact Or.inr (Or.inr ⟨hpath ▸ h1, h2⟩)

def w10zip : List (String × List RawParagraph) :=
  [("word/document.xml", [{ text := "Hello world.", inTableCell := false }]),
   ("word/header1.xml", [{ text := "Case No. 7", inTableCell := false }])]

def w10settings : DocumentSettings :=
  { translateHeaders := true, translateFootnotes := false, preserveFormatting := true,
    translateComments := false, excludedText := "" }

def w10seg : TextSegment :=
  { id := "docx-word-header1-xml-para-0", text := "Case No. 7",
    xmlPath := "word/header1.xml", paragraphIndex := 0,
    location := Location.header, status := SegStatus.pending }

theorem parseDocx_scanned_parts_witness :
    (w10seg ∈ parseDocx w10zip w10settings) ∧
    (w10seg.location ≠ Location.footnote ∧
      (w10seg.xmlPath = "word/document.xml" ∨
        (matchesHeaderPattern w10seg.xmlPath = true ∧ w10settings.translateHeaders = true) ∨
        (matchesFooterPattern w10seg.xmlPath = true ∧ w10settings.translateFootnotes = true))) :=
  ⟨by decide, parseDocx_scanned_parts w10zip w10settings w10seg (by decide)⟩

/-- `TranslationError` from types.ts (`timestamp` is wall-clock and omitted;
batch ids are positional indices as in `TranslationBatch`). -/
structure TranslationError where
  segmentId : Option String := none
  batchId : Option Nat := none
  message : String
  recoverable : Bool
deriving DecidableEq

/-- `TranslationResult` from types.ts (`outputDataUrl`, `outputFileName` and
`processingTimeMs` are byte-level or wall-clock outputs, outside the model). -/
structure TranslationResult where
  success : Bool
  totalSegments : Nat
  successfulSegments : Nat
  failedSegments : Nat
  errors : List TranslationError
deriving DecidableEq

/-- `TranslationPhase` from types.ts. -/
inductive TranslationPhase where
  | idle
  | parsing
  | analyzing
  | translating
  | rebuilding
  | complete
  | error
  | cancelled
deriving DecidableEq

/-- Mutable state threaded through the window loop of
`runTranslationPipeline`: the master segment list (the in-place mutated
`parsedDocx.segments`), the `translations` map (as an association list whose
most recent binding wins, i.e. JS `Map.set`/`Map.get`), the accumulated error
list, and the indices of dispatched batches. -/
structure LoopState where
  segs : List TextSegment
  trans : List (String × String)
  errors : List TranslationError
  dispatched : List Nat
deriving DecidableEq

/-- JS `translations.set(key, value)`: a fresh binding shadowing older ones. -/
def setTrans (k v : String) (tr : List (String × String)) : List (String × String) :=
  (k, v) :: tr

/-- One batch dispatch of `runTranslationPipeline`: on success every segment
whose index has a response entry is completed with its translation; on failure
(`translateBatchLegalText` threw) every segment of the batch falls back to its
own original text with status `error`, and a recoverable error is recorded. -/
def runBatch (oracle : Nat → List String → Except String (List String)) (idx : Nat)
    (bsegs : List TextSegment) (st : LoopState) : LoopState :=
  match oracle idx (bsegs.map (fun s => s.text)) with
  | Except.ok translations =>
      let assigned := (bsegs.zip translations).map (fun p => (p.1.id, p.2))
      { st with
        trans := assigned.foldl (fun tr p => setTrans p.1 p.2 tr) st.trans,
        segs := st.segs.map (fun s =>
          match List.lookup s.id assigned with
          | some v => { s with translatedText := some v, status := SegStatus.completed }
          | none => s),
        dispatched := st.dispatched ++ [idx] }
  | Except.error msg =>
      { st with
        trans := bsegs.foldl (fun tr s => setTrans s.id s.text tr) st.trans,
        segs := st.segs.map (fun s =>
          if bsegs.any (fun b => b.id == s.id) then
            { s with
              translatedText := some s.text
              status := SegStatus.error
              errMsg := some msg }
          else s),
        errors := st.errors ++
          [{ batchId := some idx, message := msg, recoverable := true }],
        dispatched := st.dispatched ++ [idx] }

/-- Dispatch of one concurrency window (each batch writes only its own
segments, so the concurrent window is modelled by sequential dispatch). -/
def runWindowFrom (oracle : Nat → List String → Except String (List String)) :
    Nat → List TranslationBatch → LoopState → LoopState
  | _, [], st => st
  | idx, b :: bs, st => runWindowFrom oracle (idx + 1) bs (runBatch oracle idx b.segments st)

/-- The cancellation signal: `aborted a t` is whether `signal.aborted` reads
true at the window boundary reached after `t` completed windows, for a signal
that is set once `a` windows have completed. -/
def aborted (abortTime : Option Nat) (t : Nat) : Bool :=
  match abortTime with
  | none => false
  | some a => decide (a ≤ t)

/-- The window loop of `runTranslationPipeline`: before each window the abort
signal is checked (a set signal raises `AbortError`); otherwise the next
`maxConcurrentBatches` batches are dispatched and awaited.  Fuel-indexed so
that evaluation is structural; `batches.length` fuel always suffices.  The
source loop does not terminate when `maxConcurrentBatches = 0` (its index
advances by 0): the model steps by `max w 1`, and every theorem about the
pipeline assumes `1 ≤ maxConcurrentBatches`. -/
def processWindowsAux (oracle : Nat → List String → Except String (List String))
    (w : Nat) (abortTime : Option Nat) :
    Nat → List TranslationBatch → Nat → Nat → LoopState → Bool × Nat × LoopState
  | _, [], _idx, t, st => (false, t, st)
  | 0, _ :: _, _idx, t, st => (false, t, st)
  | fuel + 1, b :: bs, idx, t, st =>
      if aborted abortTime t then (true, t, st)
      else
        let step := max w 1
        let window := (b :: bs).take step
        processWindowsAux oracle w abortTime fuel ((b :: bs).drop step)
          (idx + window.length) (t + 1) (runWindowFrom oracle idx window st)

def processWindows (oracle : Nat → List String → Except String (List String))
    (w : Nat) (abortTime : Option Nat) (batches : List TranslationBatch)
    (st : LoopState) : Bool × Nat × LoopState :=
  processWindowsAux oracle w abortTime batches.length batches 0 0 st

/-- The post-loop fill of `runTranslationPipeline`: every segment whose id has
no `translations` entry (in particular those excluded by the settings) is
assigned its own original text and marked completed. -/
def markExcluded : List (String × String) → List TextSegment →
    List TextSegment × List (String × String)
  | tr, [] => ([], tr)
  | tr, s :: rest =>
      if (List.lookup s.id tr).isSome then
        let r := markExcluded tr rest
        (s :: r.1, r.2)
      else
        let s' := { s with translatedText := some s.text, status := SegStatus.completed }
        let r := markExcluded (setTrans s.id s.text tr) rest
        (s' :: r.1, r.2)

/-- Observables of one pipeline run: the progress phases reported, the
outcome (`none` models the thrown `AbortError`), the final segment list, the
final unit-id-to-text map, the dispatched batch indices, and whether
`rebuildDocx` was invoked. -/
structure PipelineRun where
  phases : List TranslationPhase
  outcome : Option TranslationResult
  finalSegments : List TextSegment
  translations : List (String × String)
  dispatched : List Nat
  rebuildCalled : Bool
deriving DecidableEq

/-- Progress phases reported by a run that completed `t` windows: `analyzing`
before context analysis, `translating` before the loop and after each window,
then `rebuilding` and `complete` when the run finishes. -/
def phasesFor (t : Nat) (finished : Bool) : List TranslationPhase :=
  [TranslationPhase.analyzing, TranslationPhase.translating] ++
    List.replicate t TranslationPhase.translating ++
    (if finished then [TranslationPhase.rebuilding, TranslationPhase.complete] else [])

/-- `runTranslationPipeline` from translationPipelineService.  The translation
collaborator is the `oracle` (batch index and texts to translated texts or a
thrown error); document-context analysis always yields a context (it falls
back to defaults) and only affects the prompt, so it is not modelled;
`rebuildDocx` succeeding is represented by `rebuildCalled := true` with
`success := true`. -/
def runTranslationPipeline (allSegments : List TextSegment) (config : TranslationConfig)
    (oracle : Nat → List String → Except String (List String))
    (abortTime : Option Nat) : PipelineRun :=
  let segments := filterSegmentsBySettings allSegments config
  if segments.length = 0 then
    { phases := []
      outcome := some
        { success := false
          totalSegments := 0
          successfulSegments := 0
          failedSegments := 0
          errors := [{ message := "No translatable text found in document."
                       recoverable := false }] }
      finalSegments := allSegments
      translations := []
      dispatched := []
      rebuildCalled := false }
  else if aborted abortTime 0 then
    { phases := [], outcome := none, finalSegments := allSegments, translations := [],
      dispatched := [], rebuildCalled := false }
  else
    let batches := createBatches segments config
    let r := processWindows oracle config.maxConcurrentBatches abortTime batches
      { segs := allSegments, trans := [], errors := [], dispatched := [] }
    if r.1 then
      { phases := phasesFor r.2.1 false, outcome := none, finalSegments := r.2.2.segs,
        translations := r.2.2.trans, dispatched := r.2.2.dispatched,
        rebuildCalled := false }
    else
      let m := markExcluded r.2.2.trans r.2.2.segs
      if aborted abortTime r.2.1 then
        { phases := phasesFor r.2.1 false, outcome := none, finalSegments := m.1,
          translations := m.2, dispatched := r.2.2.dispatched, rebuildCalled := false }
      else
        { phases := phasesFor r.2.1 true
          outcome := some
            { success := true
              totalSegments := allSegments.length
              successfulSegments :=
                (m.1.filter (fun s => decide (s.status = SegStatus.completed))).length
              failedSegments :=
                (m.1.filter (fun s => decide (s.status = SegStatus.error))).length
              errors := r.2.2.errors }
          finalSegments := m.1
          translations := m.2
          dispatched := r.2.2.dispatched
          rebuildCalled := true }

/-- JS `segments.find(s => s.id === tid)` over the master segment list. -/
def findById (tid : String) (l : List TextSegment) : Option TextSegment :=
  l.find? (fun s => s.id == tid)

theorem lookup_none_of_keys (k : String) :
    ∀ (l : List (String × String)), (∀ p ∈ l, p.1 ≠ k) → List.lookup k l = none := by
  intro l
  induction l with
  | nil => intro _; rfl
  | cons p rest ih =>
      intro h
      have hne : p.1 ≠ k := h p (List.mem_cons_self p rest)
      cases p with
      | mk a b =>
          have hba : (k == a) = false := beq_eq_false_iff_ne.mpr (fun hc => hne hc.symm)
          simp only [List.lookup, hba]
          exact ih (fun q hq => h q (List.mem_cons_of_mem _ hq))

theorem lookup_setTrans_ne (k k' v : String) (tr : List (String × String)) (h : k' ≠ k) :
    List.lookup k (setTrans k' v tr) = List.lookup k tr := by
  have hba : (k == k') = false := beq_eq_false_iff_ne.mpr (fun hc => h hc.symm)
  simp only [setTrans, List.lookup, hba]

theorem lookup_setTrans_self (k v : String) (tr : List (String × String)) :
    List.lookup k (setTrans k v tr) = some v := by
  simp [setTrans, List.lookup]

theorem lookup_isSome_setTrans (k k' v : String) (tr : List (String × String))
    (h : (List.lookup k tr).isSome = true) :
    (List.lookup k (setTrans k' v tr)).isSome = true := by
  by_cases hk : k' = k
  · subst hk; simp [lookup_setTrans_self]
  · rw [lookup_setTrans_ne k k' v tr hk]; exact h

theorem findById_map (tid : String) (f : TextSegment → TextSegment)
    (hf : ∀ x, (f x).id = x.id) :
    ∀ (l : List TextSegment), findById tid (l.map f) = (findById tid l).map f := by
  intro l
  induction l with
  | nil => rfl
  | cons s rest ih =>
      simp only [List.map_cons, findById, List.find?]
      rw [hf s]
      cases hq : (s.id == tid)
      · exact ih
      · rfl

theorem findById_id_of_some (tid : String) (l : List TextSegment) (y : TextSegment)
    (h : findById tid l = some y) : y.id = tid := by
  have := List.find?_some h
  simpa using this

theorem findById_nodup (l : List TextSegment) (s : TextSegment)
    (hN : (l.map (fun x => x.id)).Nodup) (hs : s ∈ l) :
    findById s.id l = some s := by
  induction l with
  | nil => simp at hs
  | cons a rest ih =>
      simp only [List.map_cons, List.nodup_cons] at hN
      rcases List.mem_cons.mp hs with hfirst | hrest
      · subst hfirst
        simp [findById, List.find?]
      · have hne : a.id ≠ s.id := by
          intro hc
          exact hN.1 (hc ▸ List.mem_map_of_mem (fun x => x.id) hrest)
        simp only [findById, List.find?]
        rw [show (a.id == s.id) = false by simpa using hne]
        exact ih hN.2 hrest

theorem runBatch_id_text_invariant (oracle : Nat → List String → Except String (List String))
    (idx : Nat) (bsegs : List TextSegment) (st : LoopState) :
    (runBatch oracle idx bsegs st).segs.map (fun s => s.id) = st.segs.map (fun s => s.id) := by
  simp only [runBatch]
  split
  · rw [List.map_map]
    apply List.map_congr_left
    intro s _
    simp only [Function.comp]
    split <;> rfl
  · rw [List.map_map]
    apply List.map_congr_left
    intro s _
    simp only [Function.comp]
    split <;> rfl

theorem lookup_foldl_setTrans_pairs_ne (tid : String) :
    ∀ (l : List (String × String)) (tr : List (String × String)),
      (∀ p ∈ l, p.1 ≠ tid) →
      List.lookup tid (l.foldl (fun tr p => setTrans p.1 p.2 tr) tr) = List.lookup tid tr := by
  intro l
  induction l with
  | nil => intro tr _; rfl
  | cons p rest ih =>
      intro tr h
      simp only [List.foldl_cons]
      rw [ih _ (fun q hq => h q (List.mem_cons_of_mem _ hq)),
        lookup_setTrans_ne _ _ _ _ (h p (List.mem_cons_self p rest))]

theorem lookup_foldl_setTrans_segs_ne (tid : String) :
    ∀ (l : List TextSegment) (tr : List (String × String)),
      (∀ s ∈ l, s.id ≠ tid) →
      List.lookup tid (l.foldl (fun tr s => setTrans s.id s.text tr) tr) =
        List.lookup tid tr := by
  intro l
  induction l with
  | nil => intro tr _; rfl
  | cons s rest ih =>
      intro tr h
      simp only [List.foldl_cons]
      rw [ih _ (fun q hq => h q (List.mem_cons_of_mem _ hq)),
        lookup_setTrans_ne _ _ _ _ (h s (List.mem_cons_self s rest))]

theorem lookup_isSome_foldl_setTrans_pairs (tid : String) :
    ∀ (l : List (String × String)) (tr : List (String × String)),
      (List.lookup tid tr).isSome = true →
      (List.lookup tid (l.foldl (fun tr p => setTrans p.1 p.2 tr) tr)).isSome = true := by
  intro l
  induction l with
  | nil => intro tr h; exact h
  | cons p rest ih =>
      intro tr h
      simp only [List.foldl_cons]
      exact ih _ (lookup_isSome_setTrans _ _ _ _ h)

theorem lookup_isSome_foldl_setTrans_segs (tid : String) :
    ∀ (l : List TextSegment) (tr : List (String × String)),
      (List.lookup tid tr).isSome = true →
      (List.lookup tid (l.foldl (fun tr s => setTrans s.id s.text tr) tr)).isSome = true := by
  intro l
  induction l with
  | nil => intro tr h; exact h
  | cons s rest ih =>
      intro tr h
      simp only [List.foldl_cons]
      exact ih _ (lookup_isSome_setTrans _ _ _ _ h)

theorem lookup_isSome_foldl_setTrans_segs_mem (s : TextSegment) :
    ∀ (l : List TextSegment) (tr : List (String × String)), s ∈ l →
      (List.lookup s.id (l.foldl (fun tr x => setTrans x.id x.text tr) tr)).isSome = true := by
  intro l
  induction l with
  | nil => intro tr h; simp at h
  | cons x rest ih =>
      intro tr h
      simp only [List.foldl_cons]
      rcases List.mem_cons.mp h with hfirst | hrest
      · subst hfirst
        exact lookup_isSome_foldl_setTrans_segs _ _ _ (by simp [lookup_setTrans_self])
      · exact ih _ hrest

theorem runBatch_findById_not_mem (oracle : Nat → List String → Except String (List String))
    (idx : Nat) (bsegs : List TextSegment) (st : LoopState) (tid : String)
    (h : ∀ b ∈ bsegs, b.id ≠ tid) :
    findById tid (runBatch oracle idx bsegs st).segs = findById tid st.segs := by
  simp only [runBatch]
  split
  · rename_i translations _
    rw [findById_map tid _ (by intro x; split <;> rfl)]
    cases hfind : findById tid st.segs with
    | none => rfl
    | some y =>
        have hy : y.id = tid := findById_id_of_some tid _ y hfind
        simp only [Option.map]
        have hnone : List.lookup y.id ((bsegs.zip translations).map
            (fun p => (p.1.id, p.2))) = none := by
          apply lookup_none_of_keys
          intro p hp
          rcases List.mem_map.mp hp with ⟨q, hq, hpe⟩
          have hq1 := (List.mem_zip hq).1
          rw [← hpe]
          simpa [hy] using h q.1 hq1
        rw [hnone]
  · rw [findById_map tid _ (by intro x; split <;> rfl)]
    cases hfind : findById tid st.segs with
    | none => rfl
    | some y =>
        have hy : y.id = tid := findById_id_of_some tid _ y hfind
        simp only [Option.map]
        have hany : bsegs.any (fun b => b.id == y.id) = false := by
          rw [List.any_eq_false]
          intro b hb
          simpa [hy] using h b hb
        rw [hany]
        simp

theorem runBatch_lookup_not_mem (oracle : Nat → List String → Except String (List String))
    (idx : Nat) (bsegs : List TextSegment) (st : LoopState) (tid : String)
    (h : ∀ b ∈ bsegs, b.id ≠ tid) :
    List.lookup tid (runBatch oracle idx bsegs st).trans = List.lookup tid st.trans := by
  simp only [runBatch]
  split
  · apply lookup_foldl_setTrans_pairs_ne
    intro p hp
    rcases List.mem_map.mp hp with ⟨q, hq, hpe⟩
    have hq1 := (List.mem_zip hq).1
    rw [← hpe]
    exact h q.1 hq1
  · exact lookup_foldl_setTrans_segs_ne tid bsegs st.trans h

theorem runBatch_lookup_isSome_mono (oracle : Nat → List String → Except String (List String))
    (idx : Nat) (bsegs : List TextSegment) (st : LoopState) (tid : String)
    (h : (List.lookup tid st.trans).isSome = true) :
    (List.lookup tid (runBatch oracle idx bsegs st).trans).isSome = true := by
  simp only [runBatch]
  split
  · exact lookup_isSome_foldl_setTrans_pairs tid _ _ h
  · exact lookup_isSome_foldl_setTrans_segs tid _ _ h

theorem runBatch_errors_mono (oracle : Nat → List String → Except String (List String))
    (idx : Nat) (bsegs : List TextSegment) (st : LoopState) (e : TranslationError)
    (h : e ∈ st.errors) : e ∈ (runBatch oracle idx bsegs st).errors := by
  simp only [runBatch]
  split
  · exact h
  · exact List.mem_append.mpr (Or.inl h)

theorem runBatch_err_effects (oracle : Nat → List String → Except String (List String))
    (idx : Nat) (bsegs : List TextSegment) (st : LoopState) (msg : String)
    (herr : oracle idx (bsegs.map (fun s => s.text)) = Except.error msg) :
    ({ batchId := some idx, message := msg, recoverable := true } : TranslationError) ∈
        (runBatch oracle idx bsegs st).errors ∧
    (∀ s ∈ bsegs, (List.lookup s.id (runBatch oracle idx bsegs st).trans).isSome = true) ∧
    (∀ s ∈ bsegs,
      findById s.id (runBatch oracle idx bsegs st).segs =
        (findById s.id st.segs).map (fun y =>
          { y with
            translatedText := some y.text
            status := SegStatus.error
            errMsg := some msg })) := by
  refine ⟨?_, ?_, ?_⟩
  · simp [runBatch, herr]
  · intro s hs
    simp only [runBatch, herr]
    exact lookup_isSome_foldl_setTrans_segs_mem s bsegs st.trans hs
  · intro s hs
    simp only [runBatch, herr]
    rw [findById_map s.id _ (by intro x; split <;> rfl)]
    cases hfind : findById s.id st.segs with
    | none => rfl
    | some y =>
        have hy : y.id = s.id := findById_id_of_some s.id _ y hfind
        simp only [Option.map]
        have hany : bsegs.any (fun b => b.id == y.id) = true := by
          rw [List.any_eq_true]
          exact ⟨s, hs, by simp [hy]⟩
        rw [hany]
        simp

theorem mem_foldl_setTrans_pairs :
    ∀ (l : List (String × String)) (tr : List (String × String)) (p : String × String),
      p ∈ l.foldl (fun tr q => setTrans q.1 q.2 tr) tr → p ∈ l ∨ p ∈ tr := by
  intro l
  induction l with
  | nil => intro tr p h; exact Or.inr h
  | cons q rest ih =>
      intro tr p h
      simp only [List.foldl_cons] at h
      rcases ih _ p h with hl | hr
      · exact Or.inl (List.mem_cons_of_mem q hl)
      · simp only [setTrans, List.mem_cons] at hr
        rcases hr with he | ht
        · exact Or.inl (by rw [he, Prod.mk.eta]; exact List.mem_cons_self q rest)
        · exact Or.inr ht

theorem mem_foldl_setTrans_segs :
    ∀ (l : List TextSegment) (tr : List (String × String)) (p : String × String),
      p ∈ l.foldl (fun tr s => setTrans s.id s.text tr) tr →
      (∃ s ∈ l, p = (s.id, s.text)) ∨ p ∈ tr := by
  intro l
  induction l with
  | nil => intro tr p h; exact Or.inr h
  | cons q rest ih =>
      intro tr p h
      simp only [List.foldl_cons] at h
      rcases ih _ p h with ⟨s, hs, he⟩ | hr
      · exact Or.inl ⟨s, List.mem_cons_of_mem q hs, he⟩
      · simp only [setTrans, List.mem_cons] at hr
        rcases hr with he | ht
        · exact Or.inl ⟨q, List.mem_cons_self q rest, he⟩
        · exact Or.inr ht

theorem runBatch_trans_keys (oracle : Nat → List String → Except String (List String))
    (idx : Nat) (bsegs : List TextSegment) (st : LoopState) :
    ∀ p ∈ (runBatch oracle idx bsegs st).trans,
      p.1 ∈ bsegs.map (fun s => s.id) ∨ p ∈ st.trans := by
  intro p hp
  simp only [runBatch] at hp
  split at hp
  · rcases mem_foldl_setTrans_pairs _ _ p hp with hl | hr
    · rcases List.mem_map.mp hl with ⟨q, hq, he⟩
      exact Or.inl (by rw [← he]; exact List.mem_map_of_mem _ ((List.mem_zip hq).1))
    · exact Or.inr hr
  · rcases mem_foldl_setTrans_segs _ _ p hp with ⟨s, hs, he⟩ | hr
    · exact Or.inl (by rw [he]; exact List.mem_map_of_mem _ hs)
    · exact Or.inr hr

theorem runWindowFrom_append (oracle : Nat → List String → Except String (List String)) :
    ∀ (l1 l2 : List TranslationBatch) (idx : Nat) (st : LoopState),
      runWindowFrom oracle idx (l1 ++ l2) st =
        runWindowFrom oracle (idx + l1.length) l2 (runWindowFrom oracle idx l1 st) := by
  intro l1
  induction l1 with
  | nil => intro l2 idx st; simp [runWindowFrom]
  | cons b rest ih =>
      intro l2 idx st
      simp only [List.cons_append, runWindowFrom, List.length_cons]
      have hconv : rest.append l2 = rest ++ l2 := rfl
      rw [hconv, ih]
      have harith : idx + 1 + rest.length = idx + (rest.length + 1) := by omega
      rw [harith]

theorem runWindowFrom_findById_not_mem
    (oracle : Nat → List String → Except String (List String)) (tid : String) :
    ∀ (bs : List TranslationBatch) (idx : Nat) (st : LoopState),
      (∀ B ∈ bs, ∀ b ∈ B.segments, b.id ≠ tid) →
      findById tid (runWindowFrom oracle idx bs st).segs = findById tid st.segs := by
  intro bs
  induction bs with
  | nil => intro idx st _; rfl
  | cons B rest ih =>
      intro idx st h
      simp only [runWindowFrom]
      rw [ih _ _ (fun B' hB' => h B' (List.mem_cons_of_mem B hB')),
        runBatch_findById_not_mem _ _ _ _ _ (h B (List.mem_cons_self B rest))]

theorem runWindowFrom_lookup_not_mem
    (oracle : Nat → List String → Except String (List String)) (tid : String) :
    ∀ (bs : List TranslationBatch) (idx : Nat) (st : LoopState),
      (∀ B ∈ bs, ∀ b ∈ B.segments, b.id ≠ tid) →
      List.lookup tid (runWindowFrom oracle idx bs st).trans =
        List.lookup tid st.trans := by
  intro bs
  induction bs with
  | nil => intro idx st _; rfl
  | cons B rest ih =>
      intro idx st h
      simp only [runWindowFrom]
      rw [ih _ _ (fun B' hB' => h B' (List.mem_cons_of_mem B hB')),
        runBatch_lookup_not_mem _ _ _ _ _ (h B (List.mem_cons_self B rest))]

theorem runWindowFrom_lookup_isSome_mono
    (oracle : Nat → List String → Except String (List String)) (tid : String) :
    ∀ (bs : List TranslationBatch) (idx : Nat) (st : LoopState),
      (List.lookup tid st.trans).isSome = true →
      (List.lookup tid (runWindowFrom oracle idx bs st).trans).isSome = true := by
  intro bs
  induction bs with
  | nil => intro idx st h; exact h
  | cons B rest ih =>
      intro idx st h
      exact ih _ _ (runBatch_lookup_isSome_mono _ _ _ _ _ h)

theorem runWindowFrom_errors_mono
    (oracle : Nat → List String → Except String (List String)) (e : TranslationError) :
    ∀ (bs : List TranslationBatch) (idx : Nat) (st : LoopState),
      e ∈ st.errors → e ∈ (runWindowFrom oracle idx bs st).errors := by
  intro bs
  induction bs with
  | nil => intro idx st h; exact h
  | cons B rest ih =>
      intro idx st h
      exact ih _ _ (runBatch_errors_mono _ _ _ _ _ h)

theorem runWindowFrom_ids (oracle : Nat → List String → Except String (List String)) :
    ∀ (bs : List TranslationBatch) (idx : Nat) (st : LoopState),
      (runWindowFrom oracle idx bs st).segs.map (fun s => s.id) =
        st.segs.map (fun s => s.id) := by
  intro bs
  induction bs with
  | nil => intro idx st; rfl
  | cons B rest ih =>
      intro idx st
      simp only [runWindowFrom]
      rw [ih, runBatch_id_text_invariant]

theorem runBatch_dispatched (oracle : Nat → List String → Except String (List String))
    (idx : Nat) (bsegs : List TextSegment) (st : LoopState) :
    (runBatch oracle idx bsegs st).dispatched = st.dispatched ++ [idx] := by
  simp only [runBatch]
  split <;> rfl

theorem runWindowFrom_dispatched
    (oracle : Nat → List String → Except String (List String)) :
    ∀ (bs : List TranslationBatch) (idx : Nat) (st : LoopState),
      (runWindowFrom oracle idx bs st).dispatched =
        st.dispatched ++ List.range' idx bs.length := by
  intro bs
  induction bs with
  | nil => intro idx st; simp [runWindowFrom]
  | cons B rest ih =>
      intro idx st
      simp only [runWindowFrom, List.length_cons]
      rw [ih, runBatch_dispatched, List.range'_succ]
      simp

theorem runWindowFrom_trans_keys
    (oracle : Nat → List String → Except String (List String)) :
    ∀ (bs : List TranslationBatch) (idx : Nat) (st : LoopState),
      ∀ p ∈ (runWindowFrom oracle idx bs st).trans,
        p.1 ∈ ((bs.map (fun B => B.segments.map (fun s => s.id))).flatten) ∨ p ∈ st.trans := by
  intro bs
  induction bs with
  | nil => intro idx st p hp; exact Or.inr hp
  | cons B rest ih =>
      intro idx st p hp
      rcases ih _ _ p hp with hl | hr
      · exact Or.inl (by simpa using Or.inr (by simpa using hl))
      · rcases runBatch_trans_keys _ _ _ _ p hr with hk | ht
        · exact Or.inl (by simpa using Or.inl hk)
        · exact Or.inr ht

theorem markExcluded_ids :
    ∀ (tr : List (String × String)) (segs : List TextSegment),
      (markExcluded tr segs).1.map (fun s => s.id) = segs.map (fun s => s.id) := by
  intro tr segs
  induction segs generalizing tr with
  | nil => rfl
  | cons s rest ih =>
      simp only [markExcluded]
      split
      · simp only [List.map_cons]
        rw [ih]
      · simp only [List.map_cons]
        rw [ih]

theorem markExcluded_lookup_isSome_mono (k : String) :
    ∀ (segs : List TextSegment) (tr : List (String × String)),
      (List.lookup k tr).isSome = true →
      (List.lookup k (markExcluded tr segs).2).isSome = true := by
  intro segs
  induction segs with
  | nil => intro tr h; exact h
  | cons s rest ih =>
      intro tr h
      simp only [markExcluded]
      split
      · exact ih tr h
      · exact ih _ (lookup_isSome_setTrans _ _ _ _ h)

theorem markExcluded_lookup_preserve (k : String) :
    ∀ (segs : List TextSegment) (tr : List (String × String)),
      (∀ x ∈ segs, x.id ≠ k) →
      List.lookup k (markExcluded tr segs).2 = List.lookup k tr := by
  intro segs
  induction segs with
  | nil => intro tr _; rfl
  | cons s rest ih =>
      intro tr h
      simp only [markExcluded]
      split
      · exact ih tr (fun x hx => h x (List.mem_cons_of_mem s hx))
      · rw [ih _ (fun x hx => h x (List.mem_cons_of_mem s hx)),
          lookup_setTrans_ne _ _ _ _ (h s (List.mem_cons_self s rest))]

theorem markExcluded_entry_exists (s : TextSegment) :
    ∀ (segs : List TextSegment) (tr : List (String × String)), s ∈ segs →
      (List.lookup s.id (markExcluded tr segs).2).isSome = true := by
  intro segs
  induction segs with
  | nil => intro tr h; simp at h
  | cons x rest ih =>
      intro tr h
      rcases List.mem_cons.mp h with hfirst | hrest
      · subst hfirst
        simp only [markExcluded]
        split
        · rename_i hsome
          exact markExcluded_lookup_isSome_mono _ _ _ hsome
        · exact markExcluded_lookup_isSome_mono _ _ _ (by simp [lookup_setTrans_self])
      · simp only [markExcluded]
        split
        · exact ih tr hrest
        · exact ih _ hrest

theorem markExcluded_findById_isSome (tid : String) :
    ∀ (segs : List TextSegment) (tr : List (String × String)),
      (List.lookup tid tr).isSome = true →
      findById tid (markExcluded tr segs).1 = findById tid segs := by
  intro segs
  induction segs with
  | nil => intro tr _; rfl
  | cons s rest ih =>
      intro tr h
      simp only [markExcluded]
      split
      · rename_i hsome
        simp only [findById, List.find?]
        cases hq : (s.id == tid)
        · exact ih tr h
        · rfl
      · rename_i hnone
        have hne : s.id ≠ tid := by
          intro hc
          rw [hc] at hnone
          exact hnone h
        simp only [findById, List.find?]
        rw [show (s.id == tid) = false by simpa using hne]
        exact ih _ (lookup_isSome_setTrans _ _ _ _ h)

theorem markExcluded_none_case (tid : String) :
    ∀ (segs : List TextSegment) (tr : List (String × String)) (s : TextSegment),
      findById tid segs = some s →
      List.lookup tid tr = none →
      (segs.map (fun x => x.id)).Nodup →
      findById tid (markExcluded tr segs).1 =
        some { s with translatedText := some s.text, status := SegStatus.completed } ∧
      List.lookup tid (markExcluded tr segs).2 = some s.text := by
  intro segs
  induction segs with
  | nil => intro tr s hfind _ _; simp [findById] at hfind
  | cons x rest ih =>
      intro tr s hfind hnone hN
      simp only [List.map_cons, List.nodup_cons] at hN
      simp only [findById, List.find?] at hfind
      cases hq : (x.id == tid) with
      | true =>
          rw [hq] at hfind
          simp only [Option.some.injEq] at hfind
          have hsx : s = x := hfind.symm
          subst hsx
          have hx : s.id = tid := by simpa using hq
          simp only [markExcluded]
          split
          · rename_i hsome
            rw [hx, hnone] at hsome
            simp at hsome
          · constructor
            · simp only [findById, List.find?, hq]
            · have hrest : ∀ y ∈ rest, y.id ≠ tid := by
                intro y hy hc
                exact hN.1 (by rw [hx, ← hc]; exact List.mem_map_of_mem (fun z => z.id) hy)
              rw [markExcluded_lookup_preserve tid rest _ hrest, ← hx,
                lookup_setTrans_self]
      | false =>
          rw [hq] at hfind
          have hxne : x.id ≠ tid := by simpa using hq
          simp only [markExcluded]
          split
          · rename_i hsome
            have := ih tr s hfind hnone hN.2
            refine ⟨?_, this.2⟩
            simp only [findById, List.find?]
            rw [hq]
            exact this.1
          · have hlook : List.lookup tid (setTrans x.id x.text tr) = none := by
              rw [lookup_setTrans_ne _ _ _ _ hxne]
              exact hnone
            have := ih _ s hfind hlook hN.2
            refine ⟨?_, this.2⟩
            simp only [findById, List.find?]
            rw [hq]
            exact this.1

theorem processWindowsAux_complete
    (oracle : Nat → List String → Except String (List String)) (w : Nat)
    (abortTime : Option Nat) :
    ∀ (fuel : Nat) (bs : List TranslationBatch) (idx t : Nat) (st : LoopState)
      (t' : Nat) (st' : LoopState), bs.length ≤ fuel →
      processWindowsAux oracle w abortTime fuel bs idx t st = (false, t', st') →
      st' = runWindowFrom oracle idx bs st := by
  intro fuel
  induction fuel with
  | zero =>
      intro bs idx t st t' st' hf h
      have : bs = [] := List.length_eq_zero.mp (Nat.le_zero.mp hf)
      subst this
      simp only [processWindowsAux] at h
      cases h
      rfl
  | succ fuel ih =>
      intro bs idx t st t' st' hf h
      cases bs with
      | nil =>
          simp only [processWindowsAux] at h
          cases h
          rfl
      | cons b rest =>
          simp only [processWindowsAux] at h
          split at h
          · cases h
          · rename_i hab
            have hstep : 1 ≤ max w 1 := Nat.le_max_right w 1
            have hlen : ((b :: rest).drop (max w 1)).length ≤ fuel := by
              simp only [List.length_drop, List.length_cons] at *
              omega
            have := ih _ _ _ _ _ _ hlen h
            rw [this]
            have htake : ((b :: rest).take (max w 1)).length =
                min (max w 1) (b :: rest).length := List.length_take _ _
            rw [← runWindowFrom_append]
            · congr 1
              exact List.take_append_drop _ _
            
theorem processWindowsAux_none_flag
    (oracle : Nat → List String → Except String (List String)) (w : Nat) :
    ∀ (fuel : Nat) (bs : List TranslationBatch) (idx t : Nat) (st : LoopState),
      (processWindowsAux oracle w none fuel bs idx t st).1 = false := by
  intro fuel
  induction fuel with
  | zero =>
      intro bs idx t st
      cases bs <;> rfl
  | succ fuel ih =>
      intro bs idx t st
      cases bs with
      | nil => rfl
      | cons b rest =>
          simp only [processWindowsAux]
          rw [if_neg (by simp [aborted])]
          exact ih _ _ _ _

theorem processWindowsAux_abort
    (oracle : Nat → List String → Except String (List String)) (w : Nat) (a : Nat) :
    ∀ (fuel : Nat) (bs : List TranslationBatch) (idx t : Nat) (st : LoopState),
      bs.length ≤ fuel → t ≤ a → (a - t) * max w 1 < bs.length →
      processWindowsAux oracle w (some a) fuel bs idx t st =
        (true, a, runWindowFrom oracle idx (bs.take ((a - t) * max w 1)) st) := by
  intro fuel
  induction fuel with
  | zero =>
      intro bs idx t st hf hta hrem
      omega
  | succ fuel ih =>
      intro bs idx t st hf hta hrem
      cases bs with
      | nil => simp at hrem
      | cons b rest =>
          by_cases hat : a ≤ t
          · have hae : a = t := Nat.le_antisymm hat hta
            subst hae
            simp only [processWindowsAux]
            rw [if_pos (by simp [aborted])]
            simp [runWindowFrom]
          · have hlt : t < a := Nat.lt_of_not_le hat
            simp only [processWindowsAux]
            rw [if_neg (by simp [aborted]; omega)]
            have hstep : 1 ≤ max w 1 := Nat.le_max_right w 1
            have hd : a - t = (a - (t + 1)) + 1 := by omega
            have hsplit : (a - t) * max w 1 = max w 1 + (a - (t + 1)) * max w 1 := by
              rw [hd, Nat.succ_mul]
              omega
            have hsteplen : max w 1 < (b :: rest).length := by
              have : max w 1 ≤ (a - t) * max w 1 :=
                Nat.le_mul_of_pos_left _ (by omega)
              omega
            have hlen : ((b :: rest).drop (max w 1)).length ≤ fuel := by
              simp only [List.length_drop, List.length_cons] at *
              omega
            have hrem' : (a - (t + 1)) * max w 1 < ((b :: rest).drop (max w 1)).length := by
              rw [List.length_drop]
              omega
            rw [ih _ _ _ _ hlen (by omega) hrem']
            have hcomb : List.take ((a - t) * max w 1) (b :: rest) =
                List.take (max w 1) (b :: rest) ++
                  List.take ((a - (t + 1)) * max w 1) (List.drop (max w 1) (b :: rest)) := by
              rw [hsplit, List.take_add]
            rw [hcomb, runWindowFrom_append]

theorem mem_flatten_ids (B : TranslationBatch) (l : List TranslationBatch) (b : TextSegment)
    (hB : B ∈ l) (hb : b ∈ B.segments) :
    b.id ∈ ((l.map (fun B => B.segments.map (fun s => s.id))).flatten) :=
  List.mem_flatten.mpr ⟨B.segments.map (fun s => s.id),
    List.mem_map_of_mem _ hB, List.mem_map_of_mem _ hb⟩

theorem flatten_ids_not_mem_left (A C : List TranslationBatch) (tid : String)
    (hND : (((A ++ C).map (fun B => B.segments.map (fun s => s.id))).flatten).Nodup)
    (htid : tid ∈ ((C.map (fun B => B.segments.map (fun s => s.id))).flatten)) :
    ∀ B ∈ A, ∀ b ∈ B.segments, b.id ≠ tid := by
  intro B hB b hb hc
  rw [List.map_append, List.flatten_append] at hND
  have hdisj := (List.nodup_append.mp hND).2.2
  exact hdisj (hc ▸ mem_flatten_ids B A b hB hb) htid

theorem flatten_ids_not_mem_right (A C : List TranslationBatch) (tid : String)
    (hND : (((A ++ C).map (fun B => B.segments.map (fun s => s.id))).flatten).Nodup)
    (htid : tid ∈ ((A.map (fun B => B.segments.map (fun s => s.id))).flatten)) :
    ∀ B ∈ C, ∀ b ∈ B.segments, b.id ≠ tid := by
  intro B hB b hb hc
  rw [List.map_append, List.flatten_append] at hND
  have hdisj := (List.nodup_append.mp hND).2.2
  exact hdisj htid (hc ▸ mem_flatten_ids B C b hB hb)

theorem createBatches_ids_flatten (F : List TextSegment) (cfg : TranslationConfig) :
    (((createBatches F cfg).map (fun B => B.segments.map (fun s => s.id))).flatten) =
      F.map (fun s => s.id) := by
  have hflat := createBatchesGo_flatten cfg F 0 [] 0 0 0
  simp only [List.nil_append] at hflat
  have h1 : (createBatches F cfg).map (fun B => B.segments.map (fun s => s.id)) =
      ((createBatches F cfg).map (fun B => B.segments)).map (List.map (fun s => s.id)) := by
    rw [List.map_map]
    rfl
  rw [h1, ← List.map_flatten]
  simp only [createBatches]
  rw [hflat]

theorem filtered_ids_nodup (allSegments : List TextSegment) (config : TranslationConfig)
    (hN : (allSegments.map (fun s => s.id)).Nodup) :
    ((filterSegmentsBySettings allSegments config).map (fun s => s.id)).Nodup :=
  ((List.filter_sublist allSegments).map (fun s => s.id)).nodup hN

theorem processWindows_none_fst (oracle : Nat → List String → Except String (List String))
    (w : Nat) (batches : List TranslationBatch) (st : LoopState) :
    (processWindows oracle w none batches st).1 = false :=
  processWindowsAux_none_flag oracle w batches.length batches 0 0 st

theorem processWindows_state_of_not_aborted
    (oracle : Nat → List String → Except String (List String)) (w : Nat)
    (abortTime : Option Nat) (batches : List TranslationBatch) (st : LoopState)
    (h : (processWindows oracle w abortTime batches st).1 = false) :
    (processWindows oracle w abortTime batches st).2.2 =
      runWindowFrom oracle 0 batches st := by
  have heq : processWindowsAux oracle w abortTime batches.length batches 0 0 st =
      (false, (processWindows oracle w abortTime batches st).2.1,
        (processWindows oracle w abortTime batches st).2.2) := by
    rw [← h]
    rfl
  exact processWindowsAux_complete oracle w abortTime batches.length batches 0 0 st _ _
    (Nat.le_refl _) heq

theorem pipeline_none_rebuildCalled (allSegments : List TextSegment)
    (config : TranslationConfig)
    (oracle : Nat → List String → Except String (List String))
    (hne : ¬ (filterSegmentsBySettings allSegments config).length = 0) :
    (runTranslationPipeline allSegments config oracle none).rebuildCalled = true := by
  simp only [runTranslationPipeline]
  rw [if_neg hne]
  simp only [aborted, Bool.false_eq_true, if_false,
    processWindows_none_fst]

theorem pipeline_rebuild_proj (allSegments : List TextSegment) (config : TranslationConfig)
    (oracle : Nat → List String → Except String (List String)) (abortTime : Option Nat)
    (hrun : (runTranslationPipeline allSegments config oracle abortTime).rebuildCalled = true) :
    (runTranslationPipeline allSegments config oracle abortTime).finalSegments =
      (markExcluded
        (runWindowFrom oracle 0
          (createBatches (filterSegmentsBySettings allSegments config) config)
          { segs := allSegments, trans := [], errors := [], dispatched := [] }).trans
        (runWindowFrom oracle 0
          (createBatches (filterSegmentsBySettings allSegments config) config)
          { segs := allSegments, trans := [], errors := [], dispatched := [] }).segs).1 ∧
    (runTranslationPipeline allSegments config oracle abortTime).translations =
      (markExcluded
        (runWindowFrom oracle 0
          (createBatches (filterSegmentsBySettings allSegments config) config)
          { segs := allSegments, trans := [], errors := [], dispatched := [] }).trans
        (runWindowFrom oracle 0
          (createBatches (filterSegmentsBySettings allSegments config) config)
          { segs := allSegments, trans := [], errors := [], dispatched := [] }).segs).2 ∧
    ∃ res, (runTranslationPipeline allSegments config oracle abortTime).outcome = some res ∧
      res.success = true ∧
      res.errors = (runWindowFrom oracle 0
        (createBatches (filterSegmentsBySettings allSegments config) config)
        { segs := allSegments, trans := [], errors := [], dispatched := [] }).errors := by
  simp only [runTranslationPipeline] at hrun ⊢
  split at hrun
  · simp at hrun
  · split at hrun
    · simp at hrun
    · split at hrun
      · simp at hrun
      · split at hrun
        · simp at hrun
        · rename_i hne hab0 hflag habT
          have hfst : (processWindows oracle config.maxConcurrentBatches abortTime
              (createBatches (filterSegmentsBySettings allSegments config) config)
              { segs := allSegments, trans := [], errors := [], dispatched := [] }).1 =
              false := by
            simpa using hflag
          have hst := processWindows_state_of_not_aborted oracle config.maxConcurrentBatches
            abortTime (createBatches (filterSegmentsBySettings allSegments config) config)
            { segs := allSegments, trans := [], errors := [], dispatched := [] } hfst
          rw [if_neg hne, if_neg hab0, if_neg hflag, if_neg habT]
          rw [hst]
          exact ⟨rfl, rfl, _, rfl, rfl, rfl⟩

/-- Claim C5: when the translation call for batch `k` throws, every segment of
that batch ends with status `error` and `translatedText` equal to its original
text, a recoverable error naming the batch is recorded, and the run still
reaches the rebuild phase and returns `success = true`. -/
theorem pipeline_failed_batch_recovery (allSegments : List TextSegment)
    (config : TranslationConfig)
    (oracle : Nat → List String → Except String (List String)) (msg : String) (k : Nat)
    (hN : (allSegments.map (fun s => s.id)).Nodup)
    (hw : 1 ≤ config.maxConcurrentBatches)
    (hk : k < (createBatches (filterSegmentsBySettings allSegments config) config).length)
    (herr : oracle k
      (((createBatches (filterSegmentsBySettings allSegments config) config).get
        ⟨k, hk⟩).segments.map (fun s => s.text)) = Except.error msg) :
    (runTranslationPipeline allSegments config oracle none).rebuildCalled = true ∧
    (∃ res, (runTranslationPipeline allSegments config oracle none).outcome = some res ∧
      res.success = true ∧
      ∃ e ∈ res.errors, e.batchId = some k ∧ e.recoverable = true ∧ e.message = msg) ∧
    ∀ s ∈ ((createBatches (filterSegmentsBySettings allSegments config) config).get
        ⟨k, hk⟩).segments,
      findById s.id (runTranslationPipeline allSegments config oracle none).finalSegments =
        some { s with
               translatedText := some s.text
               status := SegStatus.error
               errMsg := some msg } := by
  set F := filterSegmentsBySettings allSegments config with hFdef
  set batches := createBatches F config with hBdef
  set st0 : LoopState :=
    { segs := allSegments, trans := [], errors := [], dispatched := [] } with hst0
  set Bk := batches.get ⟨k, hk⟩ with hBkdef
  have hne : ¬ F.length = 0 := by
    intro h0
    have hFnil : F = [] := List.length_eq_zero.mp h0
    have : batches = [] := by
      rw [hBdef, hFnil]
      simp [createBatches, createBatchesGo]
    rw [this] at hk
    simp at hk
  have hrun := pipeline_none_rebuildCalled allSegments config oracle hne
  obtain ⟨hfinal, htrans, res, hres, hsucc, herrs⟩ :=
    pipeline_rebuild_proj allSegments config oracle none hrun
  set stF := runWindowFrom oracle 0 batches st0 with hstFdef
  have hflatseg : ((batches.map (fun b => b.segments)).flatten) = F := by
    have h := createBatchesGo_flatten config F 0 [] 0 0 0
    simp only [List.nil_append] at h
    exact h
  have hFN : (F.map (fun s => s.id)).Nodup := filtered_ids_nodup allSegments config hN
  have hNflat : ((batches.map (fun B => B.segments.map (fun s => s.id))).flatten).Nodup := by
    rw [hBdef, createBatches_ids_flatten]
    exact hFN
  have hmemseg : ∀ s ∈ Bk.segments, s ∈ allSegments := by
    intro s hs
    have h1 : s ∈ F := by
      rw [← hflatseg]
      exact List.mem_flatten.mpr ⟨Bk.segments,
        List.mem_map_of_mem _ (List.get_mem batches k hk), hs⟩
    exact List.mem_of_mem_filter h1
  have hsplit : batches = batches.take k ++ Bk :: batches.drop (k + 1) := by
    rw [hBkdef, List.get_eq_getElem]
    conv_lhs => rw [← List.take_append_drop k batches]
    rw [List.drop_eq_getElem_cons hk]
  have htklen : (batches.take k).length = k := by
    rw [List.length_take]
    omega
  have hstF_decomp : stF = runWindowFrom oracle (k + 1) (batches.drop (k + 1))
      (runBatch oracle k Bk.segments (runWindowFrom oracle 0 (batches.take k) st0)) := by
    rw [hstFdef]
    conv_lhs => rw [hsplit]
    rw [runWindowFrom_append, htklen]
    simp only [runWindowFrom, Nat.zero_add]
  set stPre := runWindowFrom oracle 0 (batches.take k) st0 with hstPre
  have heff := runBatch_err_effects oracle k Bk.segments stPre msg herr
  refine ⟨hrun, ⟨res, hres, hsucc, ?_⟩, ?_⟩
  · refine ⟨{ batchId := some k, message := msg, recoverable := true }, ?_, rfl, rfl, rfl⟩
    rw [herrs, hstF_decomp]
    exact runWindowFrom_errors_mono oracle _ _ _ _ heff.1
  · intro s hs
    have hpre : ∀ B ∈ batches.take k, ∀ b ∈ B.segments, b.id ≠ s.id := by
      have hN1 : (((batches.take k ++ Bk :: batches.drop (k + 1)).map
          (fun B => B.segments.map (fun s => s.id))).flatten).Nodup := by
        rw [← hsplit]
        exact hNflat
      refine flatten_ids_not_mem_left (batches.take k) (Bk :: batches.drop (k + 1)) s.id
        hN1 ?_
      exact mem_flatten_ids Bk _ s (List.mem_cons_self _ _) hs
    have hpost : ∀ B ∈ batches.drop (k + 1), ∀ b ∈ B.segments, b.id ≠ s.id := by
      have hassoc : (batches.take k ++ [Bk]) ++ batches.drop (k + 1) = batches := by
        rw [List.append_assoc, List.singleton_append]
        exact hsplit.symm
      have hN2 : ((((batches.take k ++ [Bk]) ++ batches.drop (k + 1)).map
          (fun B => B.segments.map (fun s => s.id))).flatten).Nodup := by
        rw [hassoc]
        exact hNflat
      refine flatten_ids_not_mem_right (batches.take k ++ [Bk]) (batches.drop (k + 1)) s.id
        hN2 ?_
      exact mem_flatten_ids Bk _ s
        (List.mem_append.mpr (Or.inr (List.mem_singleton.mpr rfl))) hs
    have h0 : findById s.id allSegments = some s :=
      findById_nodup allSegments s hN (hmemseg s hs)
    have h1 : findById s.id stPre.segs = some s := by
      rw [hstPre, runWindowFrom_findById_not_mem oracle s.id _ _ _ hpre]
      exact h0
    have h2 : findById s.id (runBatch oracle k Bk.segments stPre).segs =
        some { s with
               translatedText := some s.text
               status := SegStatus.error
               errMsg := some msg } := by
      rw [heff.2.2 s hs, h1]
      rfl
    have h3 : findById s.id stF.segs =
        some { s with
               translatedText := some s.text
               status := SegStatus.error
               errMsg := some msg } := by
      rw [hstF_decomp, runWindowFrom_findById_not_mem oracle s.id _ _ _ hpost]
      exact h2
    have h4 : (List.lookup s.id stF.trans).isSome = true := by
      rw [hstF_decomp]
      exact runWindowFrom_lookup_isSome_mono oracle s.id _ _ _ (heff.2.1 s hs)
    rw [hfinal, markExcluded_findById_isSome s.id stF.segs stF.trans h4]
    exact h3

def cfg5 : TranslationConfig :=
  { batchSize := 20, maxCharsPerBatch := 12000, maxConcurrentBatches := 3,
    sourceLanguage := "auto", targetLanguage := "es", excludedTerms := [],
    translateHeaders := true, translateFooters := true, translateFootnotes := true }

def oracle5 : Nat → List String → Except String (List String) :=
  fun _ _ => Except.error "boom"

theorem pipeline_failed_batch_recovery_witness :
    (runTranslationPipeline [segW1, segW2] cfg5 oracle5 none).rebuildCalled = true ∧
    (∃ res, (runTranslationPipeline [segW1, segW2] cfg5 oracle5 none).outcome = some res ∧
      res.success = true ∧
      ∃ e ∈ res.errors, e.batchId = some 0 ∧ e.recoverable = true ∧ e.message = "boom") ∧
    ∀ s ∈ ((createBatches (filterSegmentsBySettings [segW1, segW2] cfg5) cfg5).get
        ⟨0, by decide⟩).segments,
      findById s.id (runTranslationPipeline [segW1, segW2] cfg5 oracle5 none).finalSegments =
        some { s with
               translatedText := some s.text
               status := SegStatus.error
               errMsg := some "boom" } :=
  pipeline_failed_batch_recovery [segW1, segW2] cfg5 oracle5 "boom" 0
    (by decide) (by decide) (by decide) rfl

/-- Claim C7: in every run that reaches the rebuild phase, every parsed
segment has an entry in the unit-id-to-text map before `rebuildDocx` is
invoked, and segments excluded by the location settings are assigned their own
original text as their entry and are marked completed. -/
theorem pipeline_rebuild_coverage (allSegments : List TextSegment)
    (config : TranslationConfig)
    (oracle : Nat → List String → Except String (List String)) (abortTime : Option Nat)
    (hN : (allSegments.map (fun s => s.id)).Nodup)
    (hw : 1 ≤ config.maxConcurrentBatches)
    (hrun : (runTranslationPipeline allSegments config oracle abortTime).rebuildCalled = true) :
    (∀ s ∈ allSegments,
      (List.lookup s.id
        (runTranslationPipeline allSegments config oracle abortTime).translations).isSome =
        true) ∧
    (∀ s ∈ allSegments, segmentEligible config s = false →
      List.lookup s.id
        (runTranslationPipeline allSegments config oracle abortTime).translations =
        some s.text ∧
      findById s.id
        (runTranslationPipeline allSegments config oracle abortTime).finalSegments =
        some { s with translatedText := some s.text, status := SegStatus.completed }) := by
  obtain ⟨hfinal, htrans, res, hres, hsucc, herrs⟩ :=
    pipeline_rebuild_proj allSegments config oracle abortTime hrun
  set F := filterSegmentsBySettings allSegments config with hFdef
  set batches := createBatches F config with hBdef
  set st0 : LoopState :=
    { segs := allSegments, trans := [], errors := [], dispatched := [] } with hst0
  set stF := runWindowFrom oracle 0 batches st0 with hstFdef
  have hids : stF.segs.map (fun s => s.id) = allSegments.map (fun s => s.id) :=
    runWindowFrom_ids oracle batches 0 st0
  have hNF : (stF.segs.map (fun s => s.id)).Nodup := by
    rw [hids]
    exact hN
  constructor
  · intro s hs
    have hmem : s.id ∈ stF.segs.map (fun x => x.id) := by
      rw [hids]
      exact List.mem_map_of_mem _ hs
    obtain ⟨s', hs', hid⟩ := List.mem_map.mp hmem
    rw [htrans, ← hid]
    exact markExcluded_entry_exists s' stF.segs stF.trans hs'
  · intro s hs heligible
    have hsid : s.id ∉ F.map (fun x => x.id) := by
      intro hmem
      obtain ⟨s'', hs'', heq⟩ := List.mem_map.mp hmem
      have hsa : s'' ∈ allSegments := List.mem_of_mem_filter hs''
      have : s'' = s := List.inj_on_of_nodup_map hN hsa hs heq
      rw [this] at hs''
      rw [hFdef, filterSegmentsBySettings, List.mem_filter] at hs''
      rw [heligible] at hs''
      simp at hs''
    have hnone : List.lookup s.id stF.trans = none := by
      apply lookup_none_of_keys
      intro p hp
      rcases runWindowFrom_trans_keys oracle batches 0 st0 p hp with hkey | habs
      · intro hc
        rw [hBdef, createBatches_ids_flatten] at hkey
        exact hsid (hc ▸ hkey)
      · simp [hst0] at habs
    have hbatchne : ∀ B ∈ batches, ∀ b ∈ B.segments, b.id ≠ s.id := by
      intro B hB b hb hc
      have : b.id ∈ ((batches.map (fun B => B.segments.map (fun x => x.id))).flatten) :=
        mem_flatten_ids B batches b hB hb
      rw [hBdef, createBatches_ids_flatten] at this
      exact hsid (hc ▸ this)
    have hfind : findById s.id stF.segs = some s := by
      rw [hstFdef, runWindowFrom_findById_not_mem oracle s.id _ _ _ hbatchne]
      exact findById_nodup allSegments s hN hs
    have hcase := markExcluded_none_case s.id stF.segs stF.trans s hfind hnone hNF
    rw [htrans, hfinal]
    exact ⟨hcase.2, hcase.1⟩

def segHdr : TextSegment :=
  { id := "docx-word-header1-xml-para-0", text := "Header text",
    xmlPath := "word/header1.xml", paragraphIndex := 0,
    location := Location.header, status := SegStatus.pending }

def cfg7 : TranslationConfig :=
  { batchSize := 20, maxCharsPerBatch := 12000, maxConcurrentBatches := 3,
    sourceLanguage := "auto", targetLanguage := "es", excludedTerms := [],
    translateHeaders := false, translateFooters := true, translateFootnotes := true }

def oracle7 : Nat → List String → Except String (List String) :=
  fun _ texts => Except.ok texts

theorem pipeline_rebuild_coverage_witness :
    (∀ s ∈ [segW1, segHdr],
      (List.lookup s.id
        (runTranslationPipeline [segW1, segHdr] cfg7 oracle7 none).translations).isSome =
        true) ∧
    (∀ s ∈ [segW1, segHdr], segmentEligible cfg7 s = false →
      List.lookup s.id
        (runTranslationPipeline [segW1, segHdr] cfg7 oracle7 none).translations =
        some s.text ∧
      findById s.id
        (runTranslationPipeline [segW1, segHdr] cfg7 oracle7 none).finalSegments =
        some { s with translatedText := some s.text, status := SegStatus.completed }) :=
  pipeline_rebuild_coverage [segW1, segHdr] cfg7 oracle7 none
    (by decide) (by decide) (by decide)

/-- Claim C8 (amended): if the cancellation signal is set after `a ≥ 1`
completed windows and undispatched batches remain, no further window is
dispatched (every dispatched batch index is below `a * maxConcurrentBatches`),
the segments of the never-dispatched batches are untouched and keep status
`pending`, `rebuildDocx` is never called — but the run surfaces cancellation
by throwing an `AbortError` (outcome `none`), and no result or progress report
with phase `cancelled` is ever produced (see the counterexample). -/
theorem pipeline_cancellation_throws (allSegments : List TextSegment)
    (config : TranslationConfig)
    (oracle : Nat → List String → Except String (List String)) (a : Nat)
    (hN : (allSegments.map (fun s => s.id)).Nodup)
    (hw : 1 ≤ config.maxConcurrentBatches)
    (hstat : ∀ s ∈ allSegments, s.status = SegStatus.pending)
    (ha : 1 ≤ a)
    (hrem : a * config.maxConcurrentBatches <
      (createBatches (filterSegmentsBySettings allSegments config) config).length) :
    (runTranslationPipeline allSegments config oracle (some a)).outcome = none ∧
    (runTranslationPipeline allSegments config oracle (some a)).rebuildCalled = false ∧
    TranslationPhase.cancelled ∉
      (runTranslationPipeline allSegments config oracle (some a)).phases ∧
    (∀ j ∈ (runTranslationPipeline allSegments config oracle (some a)).dispatched,
      j < a * config.maxConcurrentBatches) ∧
    (∀ j (hj : j <
        (createBatches (filterSegmentsBySettings allSegments config) config).length),
      a * config.maxConcurrentBatches ≤ j →
      ∀ s ∈ ((createBatches (filterSegmentsBySettings allSegments config) config).get
          ⟨j, hj⟩).segments,
        findById s.id
          (runTranslationPipeline allSegments config oracle (some a)).finalSegments =
          some s ∧ s.status = SegStatus.pending) := by
  set F := filterSegmentsBySettings allSegments config with hFdef
  set batches := createBatches F config with hBdef
  set st0 : LoopState :=
    { segs := allSegments, trans := [], errors := [], dispatched := [] } with hst0
  set w := config.maxConcurrentBatches with hwdef
  have hmax : max w 1 = w := Nat.max_eq_left hw
  have hne : ¬ F.length = 0 := by
    intro h0
    have hFnil : F = [] := List.length_eq_zero.mp h0
    have hbnil : batches = [] := by
      rw [hBdef, hFnil]
      simp [createBatches, createBatchesGo]
    rw [hbnil] at hrem
    simp at hrem
  have hab0 : aborted (some a) 0 = false := by
    simp only [aborted, decide_eq_false_iff_not]
    omega
  have hP : processWindows oracle w (some a) batches st0 =
      (true, a, runWindowFrom oracle 0 (batches.take (a * w)) st0) := by
    have := processWindowsAux_abort oracle w a batches.length batches 0 0 st0
      (Nat.le_refl _) (Nat.zero_le a) (by rw [hmax]; simpa using hrem)
    simpa [processWindows, hmax] using this
  set stT := runWindowFrom oracle 0 (batches.take (a * w)) st0 with hstTdef
  have hrunEq : runTranslationPipeline allSegments config oracle (some a) =
      { phases := phasesFor a false, outcome := none, finalSegments := stT.segs,
        translations := stT.trans, dispatched := stT.dispatched,
        rebuildCalled := false } := by
    simp only [runTranslationPipeline]
    rw [if_neg hne]
    rw [if_neg (by simp [hab0])]
    rw [← hst0, hP]
    simp
  have htklen : (batches.take (a * w)).length = a * w := by
    rw [List.length_take]
    omega
  have hflatseg : ((batches.map (fun b => b.segments)).flatten) = F := by
    have h := createBatchesGo_flatten config F 0 [] 0 0 0
    simp only [List.nil_append] at h
    exact h
  have hFN : (F.map (fun s => s.id)).Nodup := filtered_ids_nodup allSegments config hN
  have hNflat : ((batches.map (fun B => B.segments.map (fun s => s.id))).flatten).Nodup := by
    rw [hBdef, createBatches_ids_flatten]
    exact hFN
  refine ⟨by rw [hrunEq], by rw [hrunEq], ?_, ?_, ?_⟩
  · rw [hrunEq]
    simp only [phasesFor]
    intro hmem
    simp only [List.mem_append, List.mem_cons, List.mem_replicate] at hmem
    rcases hmem with ((h | h) | h) | h
    · exact absurd h (by decide)
    · simp at h
    · exact absurd h.2 (by decide)
    · simp at h
  · intro j hj
    rw [hrunEq] at hj
    simp only at hj
    rw [hstTdef, runWindowFrom_dispatched, hst0, htklen] at hj
    simp only [List.nil_append] at hj
    rw [List.mem_range'] at hj
    omega
  · intro j hj hge s hs
    have hlen : j - a * w < (batches.drop (a * w)).length := by
      rw [List.length_drop]
      omega
    have hBjdrop : batches.get ⟨j, hj⟩ ∈ batches.drop (a * w) := by
      have heq : batches.get ⟨j, hj⟩ = (batches.drop (a * w)).get ⟨j - a * w, hlen⟩ := by
        simp only [List.get_eq_getElem, List.getElem_drop, Nat.add_sub_cancel' hge]
      rw [heq]
      exact List.get_mem _ _ _
    have hdisj : ∀ B ∈ batches.take (a * w), ∀ b ∈ B.segments, b.id ≠ s.id := by
      have hND : (((batches.take (a * w) ++ batches.drop (a * w)).map
          (fun B => B.segments.map (fun x => x.id))).flatten).Nodup := by
        rw [List.take_append_drop]
        exact hNflat
      refine flatten_ids_not_mem_left (batches.take (a * w)) (batches.drop (a * w)) s.id
        hND ?_
      exact mem_flatten_ids _ _ s hBjdrop hs
    have hsa : s ∈ allSegments := by
      have h1 : s ∈ F := by
        rw [← hflatseg]
        exact List.mem_flatten.mpr ⟨(batches.get ⟨j, hj⟩).segments,
          List.mem_map_of_mem _ (List.get_mem batches j hj), hs⟩
      exact List.mem_of_mem_filter h1
    constructor
    · rw [hrunEq]
      simp only
      rw [hstTdef, runWindowFrom_findById_not_mem oracle s.id _ _ _ hdisj]
      exact findById_nodup allSegments s hN hsa
    · exact hstat s hsa

def seg8a : TextSegment :=
  { id := "docx-word-document-xml-para-0", text := "First clause.",
    xmlPath := "word/document.xml", paragraphIndex := 0,
    location := Location.body, status := SegStatus.pending }

def seg8b : TextSegment :=
  { id := "docx-word-document-xml-para-1", text := "Second clause.",
    xmlPath := "word/document.xml", paragraphIndex := 1,
    location := Location.body, status := SegStatus.pending }

def seg8c : TextSegment :=
  { id := "docx-word-document-xml-para-2", text := "Third clause.",
    xmlPath := "word/document.xml", paragraphIndex := 2,
    location := Location.body, status := SegStatus.pending }

def cfg8 : TranslationConfig :=
  { batchSize := 1, maxCharsPerBatch := 12000, maxConcurrentBatches := 1,
    sourceLanguage := "auto", targetLanguage := "es", excludedTerms := [],
    translateHeaders := true, translateFooters := true, translateFootnotes := true }

def oracle8 : Nat → List String → Except String (List String) :=
  fun _ texts => Except.ok texts

theorem pipeline_cancellation_throws_witness :
    (runTranslationPipeline [seg8a, seg8b, seg8c] cfg8 oracle8 (some 1)).outcome = none ∧
    (runTranslationPipeline [seg8a, seg8b, seg8c] cfg8 oracle8 (some 1)).rebuildCalled =
      false ∧
    TranslationPhase.cancelled ∉
      (runTranslationPipeline [seg8a, seg8b, seg8c] cfg8 oracle8 (some 1)).phases ∧
    (∀ j ∈ (runTranslationPipeline [seg8a, seg8b, seg8c] cfg8 oracle8 (some 1)).dispatched,
      j < 1 * cfg8.maxConcurrentBatches) ∧
    (∀ j (hj : j <
        (createBatches (filterSegmentsBySettings [seg8a, seg8b, seg8c] cfg8) cfg8).length),
      1 * cfg8.maxConcurrentBatches ≤ j →
      ∀ s ∈ ((createBatches (filterSegmentsBySettings [seg8a, seg8b, seg8c] cfg8)
          cfg8).get ⟨j, hj⟩).segments,
        findById s.id
          (runTranslationPipeline [seg8a, seg8b, seg8c] cfg8 oracle8 (some 1)).finalSegments =
          some s ∧ s.status = SegStatus.pending) :=
  pipeline_cancellation_throws [seg8a, seg8b, seg8c] cfg8 oracle8 1
    (by decide) (by decide) (by decide) (by decide) (by decide)

/-- Claim C8 counterexample: in a concrete run with three single-segment
batches, window width 1 and the signal set after the first window completes,
the pipeline produces no `TranslationResult` at all (the model's `none`
outcome is the thrown `AbortError`) and no reported progress phase is
`cancelled` — refuting the claim that the run surfaces a Cancelled result with
`phase = Cancelled`. -/
theorem pipeline_cancellation_counterexample :
    (runTranslationPipeline [seg8a, seg8b, seg8c] cfg8 oracle8 (some 1)).outcome = none ∧
    TranslationPhase.cancelled ∉
      (runTranslationPipeline [seg8a, seg8b, seg8c] cfg8 oracle8 (some 1)).phases ∧
    (runTranslationPipeline [seg8a, seg8b, seg8c] cfg8 oracle8 (some 1)).phases =
      [TranslationPhase.analyzing, TranslationPhase.translating,
        TranslationPhase.translating] := by
  decide
